import Mathlib

/-!
# Athynet/query: CSV signing (csv.go)

A shallow embedding of `ProcessCSVRecords` and `ProcessCSVStream` from `csv.go`.

* A CSV record (`[]string`) is a `List String`; a table (`[][]string`) is a list of records.
  Rows are values: two rows never share a backing array (as for the rows produced by
  `encoding/csv`).
* `fmt.Sprintf` is library code and is a parameter `Sprintf template firstCol`.
* The injected `signFunc func([]byte) (string, error)` may consult hidden state (the real one,
  `RSA_PSS_Sign`, draws from `rand.Reader`), so a call takes the state and returns the next one.
  The state also makes the calls observable: a run that leaves it untouched made no call.
-/

namespace Query

/-! ## Data model -/

/-- A CSV record, `[]string`. -/
abbrev Record := List String

/-- The signing capability `signFunc func([]byte) (string, error)` with its hidden state. -/
abbrev SignFunc (σ E : Type) := ByteArray → σ → Except E String × σ

/-- The errors `ProcessCSVRecords` builds with `fmt.Errorf`. -/
inductive RecordsError (E : Type) where
  /-- The message "CSV文件表头为空" (csv.go:251). -/
  | emptyHeader : RecordsError E
  /-- The message "处理第%d行时签名失败: %w" with the row number and the wrapped
  cause (csv.go:282). -/
  | signFailed (row : Nat) (cause : E) : RecordsError E
  deriving DecidableEq, Repr

/-! ## Header transformation (csv.go:91-107 and csv.go:254-264) -/

/-- Go's builtin `copy(dst, src)`: the first `min(len(dst), len(src))` elements of `dst`
are overwritten with those of `src`; the value is the new content of `dst`. -/
def copy (dst src : List String) : List String :=
  src.take dst.length ++ dst.drop src.length

/-- The branch taken when the header has no "sign-String" field (csv.go:102-106 and
csv.go:259-263). The hypothesis is what `header[0]` needs in order not to panic. -/
def insertSignColumn (header : Record) (h : 0 < header.length) : Record :=
  let newHeader := List.replicate (header.length + 1) ""
  let newHeader := newHeader.set 0 header[0]
  let newHeader := newHeader.set 1 "sign-String"
  newHeader.take 2 ++ copy (newHeader.drop 2) (header.drop 1)

/-- The header transformation that both `ProcessCSVRecords` and `ProcessCSVStream` carry
inline: look for a field equal to "sign-String", and insert one when there is none. -/
def transformHeader (header : Record) (h : 0 < header.length) : Record :=
  let hasSignColumn := header.contains "sign-String"
  if !hasSignColumn then insertSignColumn header h else header

/-! ## Data-row transformation (csv.go:133-153 and csv.go:273-292) -/

/-- The part of the loop body that follows the `len(record) == 0` test, for a record whose
field 0 is `firstCol`: render the template, sign, pad to two fields, write field 1.
The error is the one `signFunc` returned. -/
def signRow {σ E : Type} (Sprintf : String → String → String) (signFunc : SignFunc σ E)
    (template : String) (firstCol : String) (record : Record) (s : σ) :
    Except E Record × σ :=
  let content := Sprintf template firstCol
  match signFunc content.toUTF8 s with
  | (.error err, s') => (.error err, s')
  | (.ok signature, s') =>
    let record :=
      if record.length < 2 then record ++ List.replicate (2 - record.length) "" else record
    (.ok (record.set 1 signature), s')

/-! ## ProcessCSVRecords (csv.go:243-297) -/

/-- The loop `for i := 1; i < len(records); i++` of `ProcessCSVRecords`, from index `i` on:
the second argument is `records[i:]`, the value is the new `records[i:]`, or the error of the
first failing row; the state is the signing state at that point. -/
def processRows {σ E : Type} (Sprintf : String → String → String) (signFunc : SignFunc σ E)
    (template : String) : Nat → List Record → σ → Except (RecordsError E) (List Record) × σ
  | _, [], s => (.ok [], s)
  | i, record :: rest, s =>
    match record with
    | [] =>
      match processRows Sprintf signFunc template (i + 1) rest s with
      | (.ok out, s') => (.ok (record :: out), s')
      | (.error e, s') => (.error e, s')
    | firstCol :: _ =>
      match signRow Sprintf signFunc template firstCol record s with
      | (.error err, s') => (.error (.signFailed (i + 1) err), s')
      | (.ok record', s') =>
        match processRows Sprintf signFunc template (i + 1) rest s' with
        | (.ok out, s'') => (.ok (record' :: out), s'')
        | (.error e, s'') => (.error e, s'')

/-- The function `ProcessCSVRecords(records, signFunc, template)`; `.error` stands for
`return nil, err`. The header test is `slices.Contains`, inside `transformHeader`. -/
def ProcessCSVRecords {σ E : Type} (Sprintf : String → String → String)
    (records : List Record) (signFunc : SignFunc σ E) (template : String) (s : σ) :
    Except (RecordsError E) (List Record) × σ :=
  match records with
  | [] => (.ok records, s)
  | header :: rows =>
    if h : header.length = 0 then (.error .emptyHeader, s)
    else
      let header' := transformHeader header (Nat.pos_of_ne_zero h)
      match processRows Sprintf signFunc template 1 rows s with
      | (.ok rows', s') => (.ok (header' :: rows'), s')
      | (.error e, s') => (.error e, s')

/-! ## ProcessCSVStream (csv.go:54-220)

The function is modelled from `reader.Read()` of the header on (csv.go:85); the line count
and the opening of the two files before it return early on failure and touch no record.
The goroutines (the caller as producer, `concurrency` workers, one writer) are program
counters in a shared state and run one atomic step at a time, in any order: a step is one
channel operation, one call of `signFunc`, one `atomic.AddInt64` or one `WaitGroup` wait,
together with the goroutine-local statements around it. The progress `Printf`s and the
timer are left out.

The input is the list of the records `reader.Read()` returns before its first error. The
reader of `encoding/csv` skips blank lines and returns records with at least one field;
the model admits any list, and the theorems about all the records of a run take
"every data record has a field" as a hypothesis.
-/

/-- Capacity of the channels `jobs` and `results` (csv.go:115-116). -/
def chanCap : Nat := 1000

/-- The parameters of a run of `ProcessCSVStream`, with the behaviour of the CSV library
around it. -/
structure StreamCfg (σ E : Type) where
  /-- The library function `fmt.Sprintf`, at one string argument. -/
  Sprintf : String → String → String
  /-- The argument `signFunc`. -/
  signFunc : SignFunc σ E
  /-- The argument `template`. -/
  template : String
  /-- The argument `concurrency`. -/
  concurrency : Nat
  /-- The error of `reader.Read()` once the input records are exhausted (`io.EOF`, or
  the parse error that ends the reading). -/
  readErr : E
  /-- The result of `writer.Write(record)` after the listed records were written:
  `none` for `nil`. -/
  writeErr : List Record → Record → Option E
  /-- The result of `writer.Error()` after the listed records were written. -/
  flushErr : List Record → Option E

/-- Where the calling goroutine stands, from the launch of the goroutines on. -/
inductive MainPC (E : Type) where
  /-- At `reader.Read()` in the loop of csv.go:192. -/
  | reading : MainPC E
  /-- At `jobs <- record` (csv.go:197). -/
  | pushing (record : Record) : MainPC E
  /-- At `wg.Wait()` (csv.go:202), after `close(jobs)`. -/
  | waitWorkers : MainPC E
  /-- At `writeWg.Wait()` (csv.go:204), after `close(results)`. -/
  | waitWriter : MainPC E
  /-- After the final `select` (csv.go:214-219): the value returned. -/
  | returned (err : Option E) : MainPC E

/-- Where a worker goroutine (csv.go:126-165) stands. -/
inductive WorkerPC (E : Type) where
  /-- At `for record := range jobs` (csv.go:128). -/
  | receiving : WorkerPC E
  /-- At the call of `signFunc` (csv.go:140), with `firstCol` and `record`. -/
  | signing (firstCol : String) (record : Record) : WorkerPC E
  /-- At `results <- record` (csv.go:154). -/
  | sending (record : Record) : WorkerPC E
  /-- At `atomic.AddInt64(&processedLines, 1)` (csv.go:157). -/
  | counting : WorkerPC E
  /-- At `errors <- err` (csv.go:142). -/
  | reporting (err : E) : WorkerPC E
  /-- Returned; `wg.Done()` has run. -/
  | done : WorkerPC E

/-- Whether the worker has returned. -/
def WorkerPC.isDone {E : Type} : WorkerPC E → Bool
  | .done => true
  | _ => false

/-- Where the writer goroutine (csv.go:171-186) stands. -/
inductive WriterPC (E : Type) where
  /-- At `for result := range results` (csv.go:174). -/
  | receiving : WriterPC E
  /-- At `errors <- err` (csv.go:176). -/
  | reporting (err : E) : WriterPC E
  /-- Returned; `writeWg.Done()` has run. -/
  | done : WriterPC E

/-- The shared state of the goroutines of `ProcessCSVStream`. Channels are their buffers,
oldest element first. -/
structure Pipeline (σ E : Type) where
  /-- The records `reader.Read()` has yet to return. -/
  input : List Record
  /-- The calling goroutine. -/
  main : MainPC E
  /-- Buffer of the channel `jobs`. -/
  jobs : List Record
  /-- Whether `close(jobs)` has run. -/
  jobsClosed : Bool
  /-- The `concurrency` workers. -/
  workers : List (WorkerPC E)
  /-- Buffer of the channel `results`. -/
  results : List Record
  /-- Whether `close(results)` has run. -/
  resultsClosed : Bool
  /-- The writer goroutine. -/
  writer : WriterPC E
  /-- The writer's local `flushCount`. -/
  flushCount : Nat
  /-- Buffer of the channel `errors`. -/
  errors : List E
  /-- The hidden state of `signFunc`. -/
  sign : σ
  /-- The counter `processedLines`. -/
  processedLines : Nat
  /-- The records for which `writer.Write` returned `nil`, in order, the header first. -/
  output : List Record

/-- The ways `ProcessCSVStream` ends before launching a goroutine. -/
inductive Early (E : Type) where
  /-- It returned the error (csv.go:88, csv.go:111). -/
  | returned (err : E) : Early E
  /-- It panicked: `header[0]` on a header without fields (csv.go:103). -/
  | panicked : Early E

/-- The goroutines: the schedulable units. -/
inductive Tid where
  /-- The calling goroutine. -/
  | main : Tid
  /-- The worker launched at iteration `i` of csv.go:124. -/
  | worker (i : Nat) : Tid
  /-- The writer goroutine. -/
  | writer : Tid
  deriving DecidableEq, Repr

section Stream

variable {σ E : Type}

/-- From the reading of the header to the launch of the goroutines (csv.go:85-186). -/
def launch (c : StreamCfg σ E) (input : List Record) (s : σ) :
    Except (Early E) (Pipeline σ E) :=
  match input with
  | [] => .error (.returned c.readErr)
  | header :: rest =>
    if h : 0 < header.length then
      let header := transformHeader header h
      match c.writeErr [] header with
      | some err => .error (.returned err)
      | none => .ok {
          input := rest
          main := .reading
          jobs := []
          jobsClosed := false
          workers := List.replicate c.concurrency .receiving
          results := []
          resultsClosed := false
          writer := .receiving
          flushCount := 0
          errors := []
          sign := s
          processedLines := 0
          output := [header] }
    else .error .panicked

/-- One step of the calling goroutine (csv.go:191-219); `none` when it is blocked or has
returned. -/
def stepMain (c : StreamCfg σ E) (st : Pipeline σ E) : Option (Pipeline σ E) :=
  match st.main with
  | .reading =>
    match st.input with
    | record :: rest => some { st with input := rest, main := .pushing record }
    | [] => some { st with jobsClosed := true, main := .waitWorkers }
  | .pushing record =>
    if st.jobs.length < chanCap then
      some { st with jobs := st.jobs ++ [record], main := .reading }
    else none
  | .waitWorkers =>
    if st.workers.all WorkerPC.isDone then
      some { st with resultsClosed := true, main := .waitWriter }
    else none
  | .waitWriter =>
    match st.writer with
    | .done =>
      let err :=
        match st.errors with
        | err :: _ => some err
        | [] => c.flushErr st.output
      some { st with main := .returned err }
    | _ => none
  | .returned _ => none

/-- One step of worker `i` (csv.go:126-165); `none` when it is blocked or has returned. -/
def stepWorker (c : StreamCfg σ E) (i : Nat) (st : Pipeline σ E) : Option (Pipeline σ E) :=
  match st.workers[i]? with
  | none => none
  | some .receiving =>
    match st.jobs with
    | record :: rest =>
      match record with
      | [] => some { st with jobs := rest }
      | firstCol :: _ =>
        some { st with jobs := rest, workers := st.workers.set i (.signing firstCol record) }
    | [] =>
      if st.jobsClosed then some { st with workers := st.workers.set i .done } else none
  | some (.signing firstCol record) =>
    match signRow c.Sprintf c.signFunc c.template firstCol record st.sign with
    | (.error err, s') =>
      some { st with sign := s', workers := st.workers.set i (.reporting err) }
    | (.ok record, s') =>
      some { st with sign := s', workers := st.workers.set i (.sending record) }
  | some (.sending record) =>
    if st.results.length < chanCap then
      some { st with results := st.results ++ [record], workers := st.workers.set i .counting }
    else none
  | some .counting =>
    some { st with processedLines := st.processedLines + 1,
                   workers := st.workers.set i .receiving }
  | some (.reporting err) =>
    if st.errors.length < c.concurrency then
      some { st with errors := st.errors ++ [err], workers := st.workers.set i .done }
    else none
  | some .done => none

/-- One step of the writer goroutine (csv.go:171-186); `none` when it is blocked or has
returned. -/
def stepWriter (c : StreamCfg σ E) (st : Pipeline σ E) : Option (Pipeline σ E) :=
  match st.writer with
  | .receiving =>
    match st.results with
    | result :: rest =>
      match c.writeErr st.output result with
      | some err => some { st with results := rest, writer := .reporting err }
      | none =>
        some { st with
          results := rest
          output := st.output ++ [result]
          flushCount := if (st.flushCount + 1) % 1000 = 0 then 0 else st.flushCount + 1 }
    | [] => if st.resultsClosed then some { st with writer := .done } else none
  | .reporting err =>
    if st.errors.length < c.concurrency then
      some { st with errors := st.errors ++ [err], writer := .done }
    else none
  | .done => none

/-- One step of goroutine `t`. -/
def step (c : StreamCfg σ E) (t : Tid) (st : Pipeline σ E) : Option (Pipeline σ E) :=
  match t with
  | .main => stepMain c st
  | .worker i => stepWorker c i st
  | .writer => stepWriter c st

/-- The state after the goroutines were scheduled in the given order; a goroutine that
cannot move when its turn comes is passed over. -/
def run (c : StreamCfg σ E) : List Tid → Pipeline σ E → Pipeline σ E
  | [], st => st
  | t :: ts, st =>
    match step c t st with
    | some st' => run c ts st'
    | none => run c ts st

/-- The function `ProcessCSVStream` under a schedule of its goroutines: the state the
schedule leads to, unless the function ended before launching them. -/
def ProcessCSVStream (c : StreamCfg σ E) (input : List Record) (s : σ)
    (schedule : List Tid) : Except (Early E) (Pipeline σ E) :=
  match launch c input s with
  | .error e => .error e
  | .ok st => .ok (run c schedule st)

end Stream

/-! ## Bookkeeping for the stream: what is in flight -/

section StreamBook

variable {σ E : Type}

/-- The records of a list that have a field (the others are skipped at csv.go:129). -/
def withField (rs : List Record) : List Record :=
  rs.filter fun r => r.length ≠ 0

/-- The field-0 values of the records of a list that have a field. -/
def firstCols (rs : List Record) : List String :=
  rs.filterMap List.head?

/-- Field 0 of the record a worker holds between its receive and its send. -/
def WorkerPC.held : WorkerPC E → List (Option String)
  | .signing firstCol _ => [some firstCol]
  | .sending record => [record.head?]
  | _ => []

/-- Field 0 of the records the workers hold. -/
def workersHeld : List (WorkerPC E) → List (Option String)
  | [] => []
  | w :: ws => w.held ++ workersHeld ws

/-- The record the calling goroutine holds between its read and its send. -/
def MainPC.held : MainPC E → List Record
  | .pushing record => [record]
  | _ => []

/-- How far the calling goroutine is: 0 while it reads and sends, 1 at `wg.Wait()`,
2 at `writeWg.Wait()`, 3 once it has returned. -/
def MainPC.phase : MainPC E → Nat
  | .reading => 0
  | .pushing _ => 0
  | .waitWorkers => 1
  | .waitWriter => 2
  | .returned _ => 3

/-- Field 0 of every record with a field that was read or is still to be read and of
every record that was signed, wherever it is now: written, in a channel, or held. -/
def inFlight (st : Pipeline σ E) : Multiset (Option String) :=
  (↑((st.output.drop 1).map List.head?) : Multiset (Option String))
    + ↑(st.results.map List.head?)
    + ↑(workersHeld st.workers)
    + ↑((withField st.jobs).map List.head?)
    + ↑((withField st.main.held).map List.head?)
    + ↑((withField st.input).map List.head?)

/-- What holds of every state of a run in which neither `signFunc` nor `writer.Write`
fails; `hdr` is the header that was written and `data` the list of the data records of
the input. -/
structure Inv (c : StreamCfg σ E) (hdr : Record) (data : List Record)
    (st : Pipeline σ E) : Prop where
  /-- No record is lost or made up. -/
  cols : inFlight st = ↑((withField data).map List.head?)
  /-- A worker about to sign holds the field 0 of its record. -/
  signingHead : ∀ firstCol record, WorkerPC.signing firstCol record ∈ st.workers →
    record.head? = some firstCol
  /-- No worker is reporting an error. -/
  noReporting : ∀ err, WorkerPC.reporting err ∉ st.workers
  /-- The writer is not reporting an error, and is done only once `results` is closed and
  drained. -/
  writerOk : st.writer = .receiving ∨
    (st.writer = .done ∧ st.resultsClosed = true ∧ st.results = [])
  /-- A worker is done only once `jobs` is closed and drained. -/
  doneJobs : ∀ w ∈ st.workers, w.isDone = true → st.jobsClosed = true ∧ st.jobs = []
  /-- The channel `results` is closed only once all workers are done. -/
  closedDone : st.resultsClosed = true → ∀ w ∈ st.workers, w.isDone = true
  /-- The channel `jobs` is closed exactly from `wg.Wait()` on. -/
  jobsPhase : st.jobsClosed = true ↔ 1 ≤ st.main.phase
  /-- The channel `results` is closed exactly from `writeWg.Wait()` on. -/
  resultsPhase : st.resultsClosed = true ↔ 2 ≤ st.main.phase
  /-- The input is exhausted when the reading loop is left. -/
  inputPhase : 1 ≤ st.main.phase → st.input = []
  /-- The writer is done when the function returns. -/
  writerPhase : 3 ≤ st.main.phase → st.writer = .done
  /-- The channel `errors` is empty. -/
  noErrors : st.errors = []
  /-- There are `concurrency` workers. -/
  workerCount : st.workers.length = c.concurrency
  /-- The header was written first. -/
  headerFirst : ∃ rows, st.output = hdr :: rows
  /-- The value returned is that of `writer.Error()`. -/
  returnedOk : ∀ r, st.main = .returned r → r = c.flushErr st.output

end StreamBook

/-! ## Bookkeeping for the stream with one worker: the order of the records -/

section StreamSeq

variable {σ E : Type}

/-- The record a worker has received and not yet signed. -/
def WorkerPC.pending : WorkerPC E → List Record
  | .signing _ record => [record]
  | _ => []

/-- The record a worker has signed and not yet sent. -/
def WorkerPC.sent : WorkerPC E → List Record
  | .sending record => [record]
  | _ => []

/-- What holds of every state of a run with one worker in which neither `signFunc` nor
`writer.Write` fails: the rows written, those in `results` and the one signed and held
are, in this order, the first rows with a field that the loop of `ProcessCSVRecords`
produces from the data records `data` and the initial signing state `s0`; the loop
produces the others from the records not yet signed, in the order held, in `jobs`, held by
the caller, unread, and from the present signing state. -/
def SeqInv (c : StreamCfg σ E) (data : List Record) (s0 : σ) (st : Pipeline σ E) : Prop :=
  ∃ (w : WorkerPC E) (outAll out1 : List Record) (sF : σ),
    st.workers = [w] ∧
    processRows c.Sprintf c.signFunc c.template 1 data s0 = (.ok outAll, sF) ∧
    processRows c.Sprintf c.signFunc c.template 1
      (w.pending ++ st.jobs ++ st.main.held ++ st.input) st.sign = (.ok out1, sF) ∧
    withField outAll = st.output.drop 1 ++ st.results ++ w.sent ++ withField out1

end StreamSeq

/-! ## Bookkeeping for the stream: the steps that remain -/

section StreamWeight

variable {σ E : Type}

/-- Steps the calling goroutine has left, apart from those its records cause. -/
def MainPC.weight : MainPC E → Nat
  | .reading => 3
  | .pushing _ => 10
  | .waitWorkers => 2
  | .waitWriter => 1
  | .returned _ => 0

/-- Steps a worker has left, with those of the record it holds. -/
def WorkerPC.weight : WorkerPC E → Nat
  | .receiving => 1
  | .signing _ _ => 6
  | .sending _ => 5
  | .counting => 2
  | .reporting _ => 1
  | .done => 0

/-- Steps the workers have left. -/
def workersWeight : List (WorkerPC E) → Nat
  | [] => 0
  | w :: ws => w.weight + workersWeight ws

/-- Steps the writer has left, apart from those the records in `results` cause. -/
def WriterPC.weight : WriterPC E → Nat
  | .receiving => 1
  | .reporting _ => 1
  | .done => 0

/-- A bound on the number of steps a state has left: every step lowers it. -/
def Pipeline.weight (st : Pipeline σ E) : Nat :=
  st.main.weight + 8 * st.input.length + 6 * st.jobs.length + workersWeight st.workers
    + 2 * st.results.length + st.writer.weight

end StreamWeight

/-! ## Bookkeeping for the stream: where a written row comes from -/

section StreamProv

variable {σ E : Type}

/-- The record `row` is what `signRow` returned, in some signing state, for a record of
`data` that has a field. -/
def SignedFrom (c : StreamCfg σ E) (data : List Record) (row : Record) : Prop :=
  ∃ (firstCol : String) (rest : List String) (si si' : σ), (firstCol :: rest) ∈ data ∧
    signRow c.Sprintf c.signFunc c.template firstCol (firstCol :: rest) si = (.ok row, si')

/-- What holds of every state of every run, failures or not: the records not yet signed
are records of the input `data`, and the records signed, wherever they are, each come from
`signRow` on a record of `data`. -/
structure Prov (c : StreamCfg σ E) (data : List Record) (st : Pipeline σ E) : Prop where
  /-- The records still to be read. -/
  unread : ∀ r ∈ st.input, r ∈ data
  /-- The records in `jobs`. -/
  queued : ∀ r ∈ st.jobs, r ∈ data
  /-- The record the caller holds. -/
  heldMain : ∀ r ∈ st.main.held, r ∈ data
  /-- The record a worker is about to sign, and its field 0. -/
  toSign : ∀ firstCol r, WorkerPC.signing firstCol r ∈ st.workers →
    r ∈ data ∧ r.head? = some firstCol
  /-- The record a worker is about to send. -/
  toSend : ∀ r, WorkerPC.sending r ∈ st.workers → SignedFrom c data r
  /-- The records in `results`. -/
  inResults : ∀ r ∈ st.results, SignedFrom c data r
  /-- The data rows written. -/
  written : ∀ r ∈ st.output.drop 1, SignedFrom c data r
  /-- The header was written first. -/
  hasHeader : 1 ≤ st.output.length

end StreamProv

/-! ## Instances for the concrete runs -/

/-- The value of `fmt.Sprintf(template, firstCol)` when `template` is main.go's
"trade_no=%s&version=1.0"; it stands for `Sprintf` in the concrete runs below, all of
which use that template. -/
def sprintfTradeNo (_template firstCol : String) : String :=
  "trade_no=" ++ firstCol ++ "&version=1.0"

/-- A signing function that never fails; its state counts the calls made. -/
def signAlways : SignFunc Nat String :=
  fun _ calls => (.ok "c2ln", calls + 1)

/-- A signing function whose second call fails; its state counts the calls made. -/
def signFailsSecond : SignFunc Nat String :=
  fun _ calls => if calls = 1 then (.error "crypto/rsa: signing failed", calls + 1)
    else (.ok "c2ln", calls + 1)

/-! ## Instances for the concrete runs of the stream -/

/-- A run configuration with main.go's template, a signing function and a CSV writer that
never fail, and the given number of workers. -/
def sampleCfg (concurrency : Nat) : StreamCfg Nat String where
  Sprintf := sprintfTradeNo
  signFunc := signAlways
  template := "trade_no=%s&version=1.0"
  concurrency := concurrency
  readErr := "EOF"
  writeErr := fun _ _ => none
  flushErr := fun _ => none

/-- The schedule that gives the turn to the caller, worker 0, worker 1 and the writer,
`rounds` times over. -/
def roundRobin : Nat → List Tid
  | 0 => []
  | rounds + 1 => [Tid.main, Tid.worker 0, Tid.worker 1, Tid.writer] ++ roundRobin rounds

/-- The state in which `ProcessCSVStream` launches its goroutines on the input
id / a / b / c / d / e with `sampleCfg 1` and the signing state 0. -/
def abcdeStart : Pipeline Nat String where
  input := [["a"], ["b"], ["c"], ["d"], ["e"]]
  main := .reading
  jobs := []
  jobsClosed := false
  workers := [.receiving]
  results := []
  resultsClosed := false
  writer := .receiving
  flushCount := 0
  errors := []
  sign := 0
  processedLines := 0
  output := [["id", "sign-String"]]

/-- The state in which `ProcessCSVStream` launches its goroutines on the input
id / a / (no field) / b with `sampleCfg 2` and the signing state 0. -/
def gapStart : Pipeline Nat String where
  input := [["a"], [], ["b"]]
  main := .reading
  jobs := []
  jobsClosed := false
  workers := [.receiving, .receiving]
  results := []
  resultsClosed := false
  writer := .receiving
  flushCount := 0
  errors := []
  sign := 0
  processedLines := 0
  output := [["id", "sign-String"]]

/-- The state in which `ProcessCSVStream` launches its goroutines on the input
id / a / b,x / c with `sampleCfg 2` and the signing state 0. -/
def trioStart : Pipeline Nat String where
  input := [["a"], ["b", "x"], ["c"]]
  main := .reading
  jobs := []
  jobsClosed := false
  workers := [.receiving, .receiving]
  results := []
  resultsClosed := false
  writer := .receiving
  flushCount := 0
  errors := []
  sign := 0
  processedLines := 0
  output := [["id", "sign-String"]]

/-! # Theorems -/

/-! ## Header transformation -/

theorem copy_replicate_self (t : List String) :
    copy (List.replicate t.length "") t = t := by
  simp [copy]

theorem insertSignColumn_cons (h0 : String) (t : List String)
    (h : 0 < (h0 :: t).length) :
    insertSignColumn (h0 :: t) h = h0 :: "sign-String" :: t := by
  simp [insertSignColumn, List.replicate_succ, copy]

theorem transformHeader_of_not_mem (h0 : String) (t : List String)
    (h : 0 < (h0 :: t).length) (hno : "sign-String" ∉ h0 :: t) :
    transformHeader (h0 :: t) h = h0 :: "sign-String" :: t := by
  have hc : (h0 :: t).contains "sign-String" = false := by
    simpa using hno
  simp only [transformHeader, hc]
  simpa using insertSignColumn_cons h0 t h

theorem transformHeader_of_mem (header : Record) (h : 0 < header.length)
    (hmem : "sign-String" ∈ header) : transformHeader header h = header := by
  have hc : header.contains "sign-String" = true := by simpa using hmem
  simp only [transformHeader, hc]
  rfl

/-- C2: a non-empty header with no "sign-String" field comes out one field longer, with
field 0 kept, "sign-String" at field 1, and every field i >= 1 moved to i + 1. -/
theorem transformHeader_inserts_at_one (header : Record) (h : 0 < header.length)
    (hno : "sign-String" ∉ header) :
    (transformHeader header h).length = header.length + 1 ∧
    (transformHeader header h)[0]? = header[0]? ∧
    (transformHeader header h)[1]? = some "sign-String" ∧
    ∀ i, 1 ≤ i → (transformHeader header h)[i + 1]? = header[i]? := by
  cases header with
  | nil => simp at h
  | cons h0 t =>
    rw [transformHeader_of_not_mem h0 t h hno]
    refine ⟨by simp, by simp, by simp, ?_⟩
    intro i hi
    obtain ⟨j, rfl⟩ : ∃ j, i = j + 1 := ⟨i - 1, by omega⟩
    simp

theorem transformHeader_inserts_at_one_witness :
    (transformHeader ["id", "name", "city"] (by decide)).length = 3 + 1 ∧
    (transformHeader ["id", "name", "city"] (by decide))[0]? = ["id", "name", "city"][0]? ∧
    (transformHeader ["id", "name", "city"] (by decide))[1]? = some "sign-String" ∧
    ∀ i, 1 ≤ i →
      (transformHeader ["id", "name", "city"] (by decide))[i + 1]? = ["id", "name", "city"][i]? :=
  transformHeader_inserts_at_one ["id", "name", "city"] (by decide) (by decide)

/-- C3: the header transformation is idempotent on non-empty headers, and a header that
already has a "sign-String" field is returned as it is. -/
theorem transformHeader_idempotent (header : Record) (h : 0 < header.length) :
    (∀ h2 : 0 < (transformHeader header h).length,
      transformHeader (transformHeader header h) h2 = transformHeader header h) ∧
    ("sign-String" ∈ header → transformHeader header h = header) := by
  refine ⟨?_, transformHeader_of_mem header h⟩
  intro h2
  by_cases hmem : "sign-String" ∈ header
  · have e := transformHeader_of_mem header h hmem
    exact transformHeader_of_mem _ h2 (by rw [e]; exact hmem)
  · cases header with
    | nil => simp at h
    | cons h0 t =>
      apply transformHeader_of_mem
      rw [transformHeader_of_not_mem h0 t h hmem]
      simp

theorem transformHeader_idempotent_witness :
    (∀ h2 : 0 < (transformHeader ["id", "name"] (by decide)).length,
      transformHeader (transformHeader ["id", "name"] (by decide)) h2 =
        transformHeader ["id", "name"] (by decide)) ∧
    transformHeader ["id", "name", "sign-String"] (by decide) = ["id", "name", "sign-String"] :=
  ⟨(transformHeader_idempotent ["id", "name"] (by decide)).1,
    (transformHeader_idempotent ["id", "name", "sign-String"] (by decide)).2 (by decide)⟩

/-- C4, as stated, fails: a header that has "sign-String" at another position is returned
unchanged, so its field 1 is whatever it was. -/
theorem transformHeader_sign_not_at_one :
    (transformHeader ["id", "name", "sign-String"] (by decide))[1]? = some "name" ∧
    (transformHeader ["id", "name", "sign-String"] (by decide))[1]? ≠ some "sign-String" := by
  decide

/-- C4, amended: the output header of a non-empty header always has a "sign-String" field;
it is at position 1 when the input had none, and the header is unchanged when the input
had one already. -/
theorem transformHeader_has_sign (header : Record) (h : 0 < header.length) :
    "sign-String" ∈ transformHeader header h ∧
    ("sign-String" ∉ header → (transformHeader header h)[1]? = some "sign-String") ∧
    ("sign-String" ∈ header → transformHeader header h = header) := by
  cases header with
  | nil => simp at h
  | cons h0 t =>
    refine ⟨?_, ?_, transformHeader_of_mem (h0 :: t) h⟩
    · by_cases hmem : "sign-String" ∈ h0 :: t
      · rw [transformHeader_of_mem (h0 :: t) h hmem]; exact hmem
      · rw [transformHeader_of_not_mem h0 t h hmem]
        simp
    · intro hno
      rw [transformHeader_of_not_mem h0 t h hno]
      simp

theorem transformHeader_has_sign_witness :
    "sign-String" ∈ transformHeader ["sign-String", "id"] (by decide) ∧
    transformHeader ["sign-String", "id"] (by decide) = ["sign-String", "id"] ∧
    (transformHeader ["id", "name"] (by decide))[1]? = some "sign-String" :=
  ⟨(transformHeader_has_sign ["sign-String", "id"] (by decide)).1,
    (transformHeader_has_sign ["sign-String", "id"] (by decide)).2.2 (by decide),
    (transformHeader_has_sign ["id", "name"] (by decide)).2.1 (by decide)⟩

/-! ## Data rows -/

section Rows

variable {σ E : Type} (Sprintf : String → String → String) (signFunc : SignFunc σ E)
  (template : String)

/-- What a successful `signRow` did: one call of `signFunc`, which returned the signature
now in field 1 of the padded record. -/
theorem signRow_ok_iff (firstCol : String) (record out : Record) (s s' : σ) :
    signRow Sprintf signFunc template firstCol record s = (.ok out, s') ↔
      ∃ signature, signFunc (Sprintf template firstCol).toUTF8 s = (.ok signature, s') ∧
        out = (if record.length < 2 then record ++ List.replicate (2 - record.length) ""
          else record).set 1 signature := by
  rcases hq : signFunc (Sprintf template firstCol).toUTF8 s with ⟨r, s1⟩
  cases r with
  | error e => simp [signRow, hq]
  | ok sig =>
    simp only [signRow, hq, Prod.mk.injEq, Except.ok.injEq]
    constructor
    · rintro ⟨rfl, rfl⟩
      exact ⟨sig, ⟨rfl, rfl⟩, rfl⟩
    · rintro ⟨sig2, ⟨rfl, rfl⟩, rfl⟩
      exact ⟨rfl, rfl⟩

/-- What a failed `signRow` did: one call of `signFunc`, which returned the error. -/
theorem signRow_error_iff (firstCol : String) (record : Record) (err : E) (s s' : σ) :
    signRow Sprintf signFunc template firstCol record s = (.error err, s') ↔
      signFunc (Sprintf template firstCol).toUTF8 s = (.error err, s') := by
  rcases hq : signFunc (Sprintf template firstCol).toUTF8 s with ⟨r, s1⟩
  cases r with
  | error e => simp [signRow, hq]
  | ok sig => simp [signRow, hq]

/-- Shape of a padded and signed record. -/
theorem signed_shape (firstCol : String) (rest : List String) (signature : String) :
    ((if (firstCol :: rest).length < 2
        then (firstCol :: rest) ++ List.replicate (2 - (firstCol :: rest).length) ""
        else firstCol :: rest).set 1 signature) = firstCol :: signature :: rest.tail := by
  cases rest with
  | nil => simp
  | cons b t => simp

theorem processRows_nil_row (i : Nat) (rest : List Record) (s : σ) :
    processRows Sprintf signFunc template i ([] :: rest) s =
      match processRows Sprintf signFunc template (i + 1) rest s with
      | (.ok out, s') => (.ok ([] :: out), s')
      | (.error e, s') => (.error e, s') := by
  rw [processRows]

theorem processRows_cons_row (i : Nat) (firstCol : String) (fs : List String)
    (rest : List Record) (s : σ) :
    processRows Sprintf signFunc template i ((firstCol :: fs) :: rest) s =
      match signRow Sprintf signFunc template firstCol (firstCol :: fs) s with
      | (.error err, s') => (.error (.signFailed (i + 1) err), s')
      | (.ok record', s') =>
        match processRows Sprintf signFunc template (i + 1) rest s' with
        | (.ok out, s'') => (.ok (record' :: out), s'')
        | (.error e, s'') => (.error e, s'') := by
  rw [processRows]

end Rows

section Rows

variable {σ E : Type} (Sprintf : String → String → String) (signFunc : SignFunc σ E)
  (template : String)

/-- Running the loop over `l1 ++ l2` is running it over `l1` and, when that succeeds,
over `l2` from the state reached. -/
theorem processRows_append (l1 l2 : List Record) : ∀ (i : Nat) (s : σ),
    processRows Sprintf signFunc template i (l1 ++ l2) s =
      match processRows Sprintf signFunc template i l1 s with
      | (.ok o1, s1) =>
        (match processRows Sprintf signFunc template (i + l1.length) l2 s1 with
          | (.ok o2, s2) => (.ok (o1 ++ o2), s2)
          | (.error e, s2) => (.error e, s2))
      | (.error e, s1) => (.error e, s1) := by
  induction l1 with
  | nil =>
    intro i s
    rcases hq : processRows Sprintf signFunc template i l2 s with ⟨r, s2⟩
    cases r <;> simp [processRows, hq]
  | cons record rest ih =>
    intro i s
    have hidx : i + 1 + rest.length = i + (record :: rest).length := by
      simp only [List.length_cons]; omega
    cases record with
    | nil =>
      rw [List.cons_append, processRows_nil_row, processRows_nil_row, ih (i + 1) s, hidx]
      rcases processRows Sprintf signFunc template (i + 1) rest s with ⟨r1, s1⟩
      cases r1 with
      | error e => rfl
      | ok o1 =>
        simp only
        rcases processRows Sprintf signFunc template (i + ([] :: rest).length) l2 s1 with ⟨r2, s2⟩
        cases r2 <;> rfl
    | cons f fs =>
      rw [List.cons_append, processRows_cons_row, processRows_cons_row]
      rcases signRow Sprintf signFunc template f (f :: fs) s with ⟨r0, s0⟩
      cases r0 with
      | error e => rfl
      | ok o0 =>
        simp only
        rw [ih (i + 1) s0, hidx]
        rcases processRows Sprintf signFunc template (i + 1) rest s0 with ⟨r1, s1⟩
        cases r1 with
        | error e => rfl
        | ok o1 =>
          simp only
          rcases processRows Sprintf signFunc template (i + ((f :: fs) :: rest).length) l2 s1
            with ⟨r2, s2⟩
          cases r2 <;> rfl

/-- A successful loop returns as many rows as it was given. -/
theorem processRows_ok_length (rows : List Record) : ∀ (i : Nat) (s s' : σ) (out : List Record),
    processRows Sprintf signFunc template i rows s = (.ok out, s') →
      out.length = rows.length := by
  induction rows with
  | nil =>
    intro i s s' out h
    simp only [processRows, Prod.mk.injEq, Except.ok.injEq] at h
    rw [← h.1]
  | cons record rest ih =>
    intro i s s' out h
    cases record with
    | nil =>
      rw [processRows_nil_row] at h
      rcases hq : processRows Sprintf signFunc template (i + 1) rest s with ⟨r1, s1⟩
      rw [hq] at h
      cases r1 with
      | error e => simp at h
      | ok o1 =>
        simp only [Prod.mk.injEq, Except.ok.injEq] at h
        rw [← h.1, List.length_cons, List.length_cons, ih (i + 1) s s1 o1 hq]
    | cons f fs =>
      rw [processRows_cons_row] at h
      rcases hq0 : signRow Sprintf signFunc template f (f :: fs) s with ⟨r0, s0⟩
      rw [hq0] at h
      cases r0 with
      | error e => simp at h
      | ok o0 =>
        simp only at h
        rcases hq : processRows Sprintf signFunc template (i + 1) rest s0 with ⟨r1, s1⟩
        rw [hq] at h
        cases r1 with
        | error e => simp at h
        | ok o1 =>
          simp only [Prod.mk.injEq, Except.ok.injEq] at h
          rw [← h.1, List.length_cons, List.length_cons, ih (i + 1) s0 s1 o1 hq]

end Rows

theorem split_at_index {α : Type} (rows : List α) (k : Nat) (record : α)
    (hk : rows[k]? = some record) :
    rows.take k ++ record :: rows.drop (k + 1) = rows ∧ (rows.take k).length = k := by
  obtain ⟨hlt, hget⟩ := List.getElem?_eq_some.mp hk
  constructor
  · rw [← hget, ← List.drop_eq_getElem_cons hlt, List.take_append_drop]
  · rw [List.length_take]; omega

section Rows

variable {σ E : Type} (Sprintf : String → String → String) (signFunc : SignFunc σ E)
  (template : String)

/-- In a successful loop, the rows before row `k` were processed successfully, and the
output row `k` of a row with a field is what `signRow` returned from the state reached. -/
theorem processRows_ok_at (rows : List Record) (i : Nat) (s s' : σ) (out : List Record)
    (h : processRows Sprintf signFunc template i rows s = (.ok out, s'))
    (k : Nat) (f : String) (fs : List String) (hk : rows[k]? = some (f :: fs)) :
    ∃ o1 sk o s2, processRows Sprintf signFunc template i (rows.take k) s = (.ok o1, sk) ∧
      signRow Sprintf signFunc template f (f :: fs) sk = (.ok o, s2) ∧ out[k]? = some o := by
  obtain ⟨hsplit, hlen⟩ := split_at_index rows k (f :: fs) hk
  have happ := processRows_append Sprintf signFunc template (rows.take k)
    ((f :: fs) :: rows.drop (k + 1)) i s
  rw [hsplit, h, hlen] at happ
  rcases hq1 : processRows Sprintf signFunc template i (rows.take k) s with ⟨r1, sk⟩
  rw [hq1] at happ
  cases r1 with
  | error e => simp at happ
  | ok o1 =>
    simp only at happ
    rw [processRows_cons_row] at happ
    rcases hq0 : signRow Sprintf signFunc template f (f :: fs) sk with ⟨r0, s2⟩
    rw [hq0] at happ
    cases r0 with
    | error e => simp at happ
    | ok o =>
      simp only at happ
      rcases hq2 : processRows Sprintf signFunc template (i + k + 1) (rows.drop (k + 1)) s2
        with ⟨r2, s3⟩
      rw [hq2] at happ
      cases r2 with
      | error e => simp at happ
      | ok o2 =>
        simp only [Prod.mk.injEq, Except.ok.injEq] at happ
        refine ⟨o1, sk, o, s2, rfl, hq0, ?_⟩
        have hl1 : o1.length = k := by
          rw [processRows_ok_length Sprintf signFunc template _ i s sk o1 hq1, hlen]
        rw [happ.1, List.getElem?_append_right (by omega), hl1]
        simp

/-- In a successful loop, a row without fields stays as it is. -/
theorem processRows_ok_at_nil (rows : List Record) (i : Nat) (s s' : σ) (out : List Record)
    (h : processRows Sprintf signFunc template i rows s = (.ok out, s'))
    (k : Nat) (hk : rows[k]? = some []) : out[k]? = some [] := by
  obtain ⟨hsplit, hlen⟩ := split_at_index rows k [] hk
  have happ := processRows_append Sprintf signFunc template (rows.take k)
    ([] :: rows.drop (k + 1)) i s
  rw [hsplit, h, hlen] at happ
  rcases hq1 : processRows Sprintf signFunc template i (rows.take k) s with ⟨r1, sk⟩
  rw [hq1] at happ
  cases r1 with
  | error e => simp at happ
  | ok o1 =>
    simp only at happ
    rw [processRows_nil_row] at happ
    rcases hq2 : processRows Sprintf signFunc template (i + k + 1) (rows.drop (k + 1)) sk
      with ⟨r2, s3⟩
    rw [hq2] at happ
    cases r2 with
    | error e => simp at happ
    | ok o2 =>
      simp only [Prod.mk.injEq, Except.ok.injEq] at happ
      have hl1 : o1.length = k := by
        rw [processRows_ok_length Sprintf signFunc template _ i s sk o1 hq1, hlen]
      rw [happ.1, List.getElem?_append_right (by omega), hl1]
      simp

/-- The loop fails exactly when, after the rows before it were processed successfully, the
call of `signFunc` for some row with a field fails; the error carries that row's number and
the state is the one that call left. -/
theorem processRows_error_iff (rows : List Record) : ∀ (i : Nat) (s s' : σ)
    (e : RecordsError E),
    processRows Sprintf signFunc template i rows s = (.error e, s') ↔
      ∃ k f fs o1 sk err, rows[k]? = some (f :: fs) ∧
        processRows Sprintf signFunc template i (rows.take k) s = (.ok o1, sk) ∧
        signFunc (Sprintf template f).toUTF8 sk = (.error err, s') ∧
        e = .signFailed (i + k + 1) err := by
  intro i s s' e
  constructor
  · induction rows generalizing i s with
    | nil => intro h; simp [processRows] at h
    | cons record rest ih =>
      intro h
      cases record with
      | nil =>
        rw [processRows_nil_row] at h
        rcases hq : processRows Sprintf signFunc template (i + 1) rest s with ⟨r1, s1⟩
        rw [hq] at h
        cases r1 with
        | ok o1 => simp at h
        | error e1 =>
          simp only [Prod.mk.injEq, Except.error.injEq] at h
          obtain ⟨rfl, rfl⟩ := h
          obtain ⟨k, f, fs, o1, sk, err, hk, hpre, hsig, he⟩ := ih (i + 1) s hq
          refine ⟨k + 1, f, fs, [] :: o1, sk, err, by simpa using hk, ?_, hsig, ?_⟩
          · rw [List.take_succ_cons, processRows_nil_row, hpre]
          · rw [he]; congr 1; omega
      | cons f0 fs0 =>
        rw [processRows_cons_row] at h
        rcases hq0 : signRow Sprintf signFunc template f0 (f0 :: fs0) s with ⟨r0, s0⟩
        rw [hq0] at h
        cases r0 with
        | error err0 =>
          simp only [Prod.mk.injEq, Except.error.injEq] at h
          obtain ⟨rfl, rfl⟩ := h
          refine ⟨0, f0, fs0, [], s, err0, by simp, by simp [processRows], ?_, by simp⟩
          exact (signRow_error_iff Sprintf signFunc template f0 (f0 :: fs0) err0 s s0).mp hq0
        | ok o0 =>
          simp only at h
          rcases hq : processRows Sprintf signFunc template (i + 1) rest s0 with ⟨r1, s1⟩
          rw [hq] at h
          cases r1 with
          | ok o1 => simp at h
          | error e1 =>
            simp only [Prod.mk.injEq, Except.error.injEq] at h
            obtain ⟨rfl, rfl⟩ := h
            obtain ⟨k, f, fs, o1, sk, err, hk, hpre, hsig, he⟩ := ih (i + 1) s0 hq
            refine ⟨k + 1, f, fs, o0 :: o1, sk, err, by simpa using hk, ?_, hsig, ?_⟩
            · rw [List.take_succ_cons, processRows_cons_row, hq0]
              simp only
              rw [hpre]
            · rw [he]; congr 1; omega
  · rintro ⟨k, f, fs, o1, sk, err, hk, hpre, hsig, rfl⟩
    obtain ⟨hsplit, hlen⟩ := split_at_index rows k (f :: fs) hk
    have happ := processRows_append Sprintf signFunc template (rows.take k)
      ((f :: fs) :: rows.drop (k + 1)) i s
    rw [hsplit, hpre, hlen] at happ
    simp only at happ
    rw [processRows_cons_row,
      (signRow_error_iff Sprintf signFunc template f (f :: fs) err sk s').mpr hsig] at happ
    exact happ

/-- A loop that fails on the first rows fails on all of them, the same way. -/
theorem processRows_error_of_initial (l1 l2 : List Record) (i : Nat) (s s' : σ)
    (e : RecordsError E)
    (h : processRows Sprintf signFunc template i l1 s = (.error e, s')) :
    processRows Sprintf signFunc template i (l1 ++ l2) s = (.error e, s') := by
  rw [processRows_append, h]

end Rows

section Records

variable {σ E : Type} (Sprintf : String → String → String) (signFunc : SignFunc σ E)
  (template : String)

/-- With a non-empty header, `ProcessCSVRecords` is the header transformation followed by
the loop over the data rows. -/
theorem ProcessCSVRecords_cons (header : Record) (rows : List Record) (s : σ)
    (h : header ≠ []) :
    ProcessCSVRecords Sprintf (header :: rows) signFunc template s =
      match processRows Sprintf signFunc template 1 rows s with
      | (.ok rows', s') =>
        (.ok (transformHeader header (List.length_pos.mpr h) :: rows'), s')
      | (.error e, s') => (.error e, s') := by
  have h0 : ¬ header.length = 0 := by
    intro hl; exact h (List.length_eq_zero.mp hl)
  simp only [ProcessCSVRecords, h0, dite_false]

/-- A successful `ProcessCSVRecords` on a table with a record is a successful loop over its
data rows. -/
theorem ProcessCSVRecords_ok_cons (header : Record) (rows out : List Record) (s s' : σ)
    (hrun : ProcessCSVRecords Sprintf (header :: rows) signFunc template s = (.ok out, s')) :
    ∃ (h : header ≠ []) (rows' : List Record),
      processRows Sprintf signFunc template 1 rows s = (.ok rows', s') ∧
      out = transformHeader header (List.length_pos.mpr h) :: rows' := by
  by_cases h : header = []
  · subst h
    simp [ProcessCSVRecords] at hrun
  · rw [ProcessCSVRecords_cons Sprintf signFunc template header rows s h] at hrun
    rcases hq : processRows Sprintf signFunc template 1 rows s with ⟨r, s1⟩
    rw [hq] at hrun
    cases r with
    | error e => simp at hrun
    | ok rows' =>
      simp only [Prod.mk.injEq, Except.ok.injEq] at hrun
      obtain ⟨rfl, rfl⟩ := hrun
      exact ⟨h, rows', rfl, rfl⟩

/-- In a successful `ProcessCSVRecords`, a data row `i` with a field: the records before it
were processed successfully, and the output row `i` is what `signRow` returned from the state
reached. -/
theorem ProcessCSVRecords_ok_at (records out : List Record) (s s' : σ)
    (hrun : ProcessCSVRecords Sprintf records signFunc template s = (.ok out, s'))
    (i : Nat) (hi : 1 ≤ i) (f : String) (fs : List String)
    (hrow : records[i]? = some (f :: fs)) :
    ∃ pre si o si',
      ProcessCSVRecords Sprintf (records.take i) signFunc template s = (.ok pre, si) ∧
      signRow Sprintf signFunc template f (f :: fs) si = (.ok o, si') ∧ out[i]? = some o := by
  obtain ⟨k, rfl⟩ : ∃ k, i = k + 1 := ⟨i - 1, by omega⟩
  cases records with
  | nil => simp at hrow
  | cons header rows =>
    obtain ⟨h, rows', hloop, rfl⟩ :=
      ProcessCSVRecords_ok_cons Sprintf signFunc template header rows out s s' hrun
    have hk : rows[k]? = some (f :: fs) := by simpa using hrow
    obtain ⟨o1, sk, o, s2, hpre, hsig, hout⟩ :=
      processRows_ok_at Sprintf signFunc template rows 1 s s' rows' hloop k f fs hk
    refine ⟨transformHeader header (List.length_pos.mpr h) :: o1, sk, o, s2, ?_, hsig, ?_⟩
    · rw [List.take_succ_cons, ProcessCSVRecords_cons Sprintf signFunc template header _ s h,
        hpre]
    · simpa using hout

end Records

section Records

variable {σ E : Type} (Sprintf : String → String → String) (signFunc : SignFunc σ E)
  (template : String)

/-- C5, as stated, fails: the column is inserted into the header ["id", "name"], and the
two-field row ["1", "bob"] comes out with two fields, not three. -/
theorem ProcessCSVRecords_inserted_length_not_succ :
    "sign-String" ∉ ["id", "name"] ∧
    ProcessCSVRecords sprintfTradeNo [["id", "name"], ["1", "bob"]] signAlways
        "trade_no=%s&version=1.0" 0 =
      (.ok [["id", "sign-String", "name"], ["1", "c2ln"]], 1) ∧
    ["1", "c2ln"].length ≠ ["1", "bob"].length + 1 :=
  ⟨by decide, rfl, by decide⟩

/-- C5, amended: in a successful `ProcessCSVRecords`, every data row that had a field comes
out with max(original length, 2) fields, hence at least 2, whether or not the column was
inserted into the header; that is original length + 1 only for a row of one field. -/
theorem ProcessCSVRecords_row_length (records out : List Record) (s s' : σ)
    (hrun : ProcessCSVRecords Sprintf records signFunc template s = (.ok out, s'))
    (i : Nat) (hi : 1 ≤ i) (row : Record) (hrow : records[i]? = some row)
    (hne : row ≠ []) :
    ∃ o, out[i]? = some o ∧ o.length = max row.length 2 ∧ 2 ≤ o.length ∧
      (o.length = row.length + 1 ↔ row.length = 1) := by
  cases row with
  | nil => exact absurd rfl hne
  | cons f fs =>
    obtain ⟨pre, si, o, si', -, hrowrun, hout⟩ :=
      ProcessCSVRecords_ok_at Sprintf signFunc template records out s s' hrun i hi f fs hrow
    obtain ⟨sig, -, ho⟩ :=
      (signRow_ok_iff Sprintf signFunc template f (f :: fs) o si si').mp hrowrun
    rw [signed_shape] at ho
    subst ho
    refine ⟨_, hout, ?_⟩
    cases fs with
    | nil => simp
    | cons b t =>
      simp only [List.tail_cons, List.length_cons]
      omega

theorem ProcessCSVRecords_row_length_witness :
    ∃ o, ([["id", "sign-String", "name"], ["1", "c2ln", "x"], [], ["2", "c2ln"]] :
        List Record)[3]? = some o ∧
      o.length = max ["2"].length 2 ∧ 2 ≤ o.length ∧
      (o.length = ["2"].length + 1 ↔ ["2"].length = 1) :=
  ProcessCSVRecords_row_length sprintfTradeNo signAlways "trade_no=%s&version=1.0"
    [["id", "name"], ["1", "bob", "x"], [], ["2"]]
    [["id", "sign-String", "name"], ["1", "c2ln", "x"], [], ["2", "c2ln"]] 0 2 rfl
    3 (by decide) ["2"] rfl (by decide)

/-- C9: on a table whose header has no field, `ProcessCSVRecords` returns the empty-header
error and no records, whatever the data rows and the signing function; the signing state is
the initial one, so no call of `signFunc` was made. -/
theorem ProcessCSVRecords_empty_header (rows : List Record) (s : σ) :
    ProcessCSVRecords Sprintf ([] :: rows) signFunc template s = (.error .emptyHeader, s) := by
  simp [ProcessCSVRecords]

end Records

section Records

variable {σ E : Type} (Sprintf : String → String → String) (signFunc : SignFunc σ E)
  (template : String)

theorem ProcessCSVRecords_error_cons (header : Record) (rows : List Record) (s s' : σ)
    (e : RecordsError E) (h : header ≠ []) :
    ProcessCSVRecords Sprintf (header :: rows) signFunc template s = (.error e, s') ↔
      processRows Sprintf signFunc template 1 rows s = (.error e, s') := by
  rw [ProcessCSVRecords_cons Sprintf signFunc template header rows s h]
  rcases processRows Sprintf signFunc template 1 rows s with ⟨r, s1⟩
  cases r <;> simp

theorem ProcessCSVRecords_ok_cons_iff (header : Record) (rows pre : List Record) (s s' : σ)
    (h : header ≠ []) :
    ProcessCSVRecords Sprintf (header :: rows) signFunc template s = (.ok pre, s') ↔
      ∃ o1, processRows Sprintf signFunc template 1 rows s = (.ok o1, s') ∧
        pre = transformHeader header (List.length_pos.mpr h) :: o1 := by
  rw [ProcessCSVRecords_cons Sprintf signFunc template header rows s h]
  rcases processRows Sprintf signFunc template 1 rows s with ⟨r, s1⟩
  cases r with
  | error e => simp
  | ok o =>
    simp only [Prod.mk.injEq, Except.ok.injEq]
    constructor
    · rintro ⟨rfl, rfl⟩
      exact ⟨o, ⟨rfl, rfl⟩, rfl⟩
    · rintro ⟨o1, ⟨rfl, rfl⟩, rfl⟩
      exact ⟨rfl, rfl⟩

/-- C10: on a table with a non-empty header, `ProcessCSVRecords` returns an error exactly
when the call of `signFunc` fails for a data row `i` that has a field, the records before it
having been processed successfully; the error is that row's, with row number `i + 1`; the
final signing state is the one the failing call left, so no later row is signed; an error
comes with no records. A row on which `signFunc` fails in every state makes the run fail.
The table with no record is returned as it is, without error. -/
theorem ProcessCSVRecords_error_iff (header : Record) (rows : List Record) (s : σ)
    (hne : header ≠ []) :
    (∀ (e : RecordsError E) (s' : σ),
      ProcessCSVRecords Sprintf (header :: rows) signFunc template s = (.error e, s') ↔
        ∃ i firstCol rest pre si err, 1 ≤ i ∧
          (header :: rows)[i]? = some (firstCol :: rest) ∧
          ProcessCSVRecords Sprintf ((header :: rows).take i) signFunc template s =
            (.ok pre, si) ∧
          signFunc (Sprintf template firstCol).toUTF8 si = (.error err, s') ∧
          e = .signFailed (i + 1) err) ∧
    (∀ i firstCol rest, 1 ≤ i → (header :: rows)[i]? = some (firstCol :: rest) →
      (∀ st, ∃ err, (signFunc (Sprintf template firstCol).toUTF8 st).1 = .error err) →
      ∃ e s', ProcessCSVRecords Sprintf (header :: rows) signFunc template s = (.error e, s')) ∧
    ProcessCSVRecords Sprintf [] signFunc template s = (.ok [], s) := by
  refine ⟨?_, ?_, rfl⟩
  · intro e s'
    rw [ProcessCSVRecords_error_cons Sprintf signFunc template header rows s s' e hne,
      processRows_error_iff]
    constructor
    · rintro ⟨k, f, fs, o1, sk, err, hk, hpre, hsig, rfl⟩
      refine ⟨k + 1, f, fs, transformHeader header (List.length_pos.mpr hne) :: o1, sk, err,
        by omega, by simpa using hk, ?_, hsig, ?_⟩
      · rw [List.take_succ_cons,
          ProcessCSVRecords_ok_cons_iff Sprintf signFunc template header _ _ s sk hne]
        exact ⟨o1, hpre, rfl⟩
      · congr 1; omega
    · rintro ⟨i, f, fs, pre, si, err, hi, hrow, hpre, hsig, rfl⟩
      obtain ⟨k, rfl⟩ : ∃ k, i = k + 1 := ⟨i - 1, by omega⟩
      rw [List.take_succ_cons,
        ProcessCSVRecords_ok_cons_iff Sprintf signFunc template header _ _ s si hne] at hpre
      obtain ⟨o1, hpre, -⟩ := hpre
      exact ⟨k, f, fs, o1, si, err, by simpa using hrow, hpre, hsig, by congr 1; omega⟩
  · intro i f fs hi hrow hfail
    obtain ⟨k, rfl⟩ : ∃ k, i = k + 1 := ⟨i - 1, by omega⟩
    have hk : rows[k]? = some (f :: fs) := by simpa using hrow
    rcases hq : processRows Sprintf signFunc template 1 (rows.take k) s with ⟨r, sk⟩
    cases r with
    | error e =>
      refine ⟨e, sk, ?_⟩
      rw [ProcessCSVRecords_error_cons Sprintf signFunc template header rows s sk e hne]
      have := processRows_error_of_initial Sprintf signFunc template (rows.take k) (rows.drop k)
        1 s sk e hq
      rwa [List.take_append_drop] at this
    | ok o1 =>
      obtain ⟨err, herr⟩ := hfail sk
      refine ⟨.signFailed (1 + k + 1) err,
        (signFunc (Sprintf template f).toUTF8 sk).2, ?_⟩
      rw [ProcessCSVRecords_error_cons Sprintf signFunc template header rows s _ _ hne,
        processRows_error_iff]
      exact ⟨k, f, fs, o1, sk, err, hk, hq, by rw [← herr], rfl⟩

theorem ProcessCSVRecords_error_iff_witness :
    ProcessCSVRecords sprintfTradeNo [["id"], ["a"], [], ["b", "x"], ["c"]] signFailsSecond
        "trade_no=%s&version=1.0" 0 =
      (.error (.signFailed (3 + 1) "crypto/rsa: signing failed"), 2) :=
  ((ProcessCSVRecords_error_iff sprintfTradeNo signFailsSecond "trade_no=%s&version=1.0"
      ["id"] [["a"], [], ["b", "x"], ["c"]] 0 (by decide)).1
      (.signFailed (3 + 1) "crypto/rsa: signing failed") 2).mpr
    ⟨3, "b", ["x"], [["id", "sign-String"], ["a", "c2ln"], []], 1,
      "crypto/rsa: signing failed", by decide, rfl, rfl, rfl, rfl⟩

end Records

section StreamInv

variable {σ E : Type}

theorem workersHeld_replicate_receiving (n : Nat) :
    workersHeld (List.replicate n (WorkerPC.receiving : WorkerPC E)) = [] := by
  induction n with
  | zero => rfl
  | succ n ih => simp [List.replicate_succ, workersHeld, WorkerPC.held, ih]

/-- Replacing the program counter of one worker exchanges what it holds. -/
theorem workersHeld_set (ws : List (WorkerPC E)) : ∀ (i : Nat) (w w' : WorkerPC E),
    ws[i]? = some w →
    (↑(workersHeld (ws.set i w')) : Multiset (Option String)) + ↑w.held =
      ↑(workersHeld ws) + ↑w'.held := by
  induction ws with
  | nil => intro i w w' h; simp at h
  | cons x xs ih =>
    intro i w w' h
    cases i with
    | zero =>
      simp only [List.getElem?_cons_zero, Option.some.injEq] at h
      subst h
      simp only [List.set_cons_zero, workersHeld, ← Multiset.coe_add]
      abel
    | succ j =>
      simp only [List.getElem?_cons_succ] at h
      have := ih j w w' h
      simp only [List.set_cons_succ, workersHeld, ← Multiset.coe_add]
      rw [add_assoc, this, add_assoc]

theorem mem_of_getElem?_some {α : Type} (ws : List α) (i : Nat) (w : α)
    (h : ws[i]? = some w) : w ∈ ws := by
  obtain ⟨hlt, hget⟩ := List.getElem?_eq_some.mp h
  rw [← hget]
  exact List.getElem_mem hlt

theorem withField_append (l1 l2 : List Record) :
    withField (l1 ++ l2) = withField l1 ++ withField l2 := by
  simp [withField]

theorem withField_nil_cons (l : List Record) : withField ([] :: l) = withField l := by
  simp [withField]

theorem withField_cons_cons (f : String) (fs : List String) (l : List Record) :
    withField ((f :: fs) :: l) = (f :: fs) :: withField l := by
  simp [withField]

/-- The state in which the goroutines are launched satisfies the invariant. -/
theorem Inv_launch (c : StreamCfg σ E) (input : List Record) (s : σ) (st : Pipeline σ E)
    (h : launch c input s = .ok st) :
    ∃ (header : Record) (rest : List Record) (hpos : 0 < header.length),
      input = header :: rest ∧ Inv c (transformHeader header hpos) rest st := by
  cases input with
  | nil => simp [launch] at h
  | cons header rest =>
    unfold launch at h
    simp only at h
    split at h
    · rename_i hpos
      refine ⟨header, rest, hpos, rfl, ?_⟩
      split at h
      · simp at h
      · simp only [Except.ok.injEq] at h
        subst h
        constructor <;>
          simp [inFlight, workersHeld_replicate_receiving, MainPC.held, MainPC.phase, withField,
            WorkerPC.isDone]
    · simp at h

end StreamInv

section StreamInv

variable {σ E : Type}

theorem withField_cons (r : Record) (l : List Record) :
    withField (r :: l) = withField [r] ++ withField l := by
  rw [← withField_append]; rfl

/-- A step of the calling goroutine keeps the invariant. -/
theorem Inv_stepMain (c : StreamCfg σ E) (hdr : Record) (data : List Record) (st st' : Pipeline σ E)
    (hinv : Inv c hdr data st) (h : stepMain c st = some st') : Inv c hdr data st' := by
  obtain ⟨input, main, jobs, jobsClosed, workers, results, resultsClosed, writer, flushCount,
    errors, sign, processedLines, output⟩ := st
  obtain ⟨hcols, hsh, hnr, hwok, hdj, hcd, hjp, hrp, hip, hwp, hne, hwc, hhf, hro⟩ := hinv
  simp only [inFlight] at hcols
  dsimp only at *
  cases main with
  | reading =>
    simp only [MainPC.phase, MainPC.held] at hcols hjp hrp hip hwp
    cases input with
    | nil =>
      simp only [stepMain, Option.some.injEq] at h
      subst h
      exact {
        cols := by simpa [inFlight, MainPC.held] using hcols
        signingHead := hsh
        noReporting := hnr
        writerOk := hwok
        doneJobs := fun w hw hd => ⟨rfl, (hdj w hw hd).2⟩
        closedDone := hcd
        jobsPhase := by simp [MainPC.phase]
        resultsPhase := by simpa [MainPC.phase] using hrp
        inputPhase := fun _ => rfl
        writerPhase := by simp [MainPC.phase]
        noErrors := hne
        workerCount := hwc
        headerFirst := hhf
        returnedOk := fun r hr => by simp at hr }
    | cons r rest =>
      simp only [stepMain, Option.some.injEq] at h
      subst h
      exact {
        cols := by
          simp only [inFlight, MainPC.held]
          rw [← hcols, withField_cons r rest]
          simp only [List.map_append, ← Multiset.coe_add, withField, List.filter_nil,
            List.map_nil]
          abel
        signingHead := hsh
        noReporting := hnr
        writerOk := hwok
        doneJobs := hdj
        closedDone := hcd
        jobsPhase := by simpa [MainPC.phase] using hjp
        resultsPhase := by simpa [MainPC.phase] using hrp
        inputPhase := by simp [MainPC.phase]
        writerPhase := by simp [MainPC.phase]
        noErrors := hne
        workerCount := hwc
        headerFirst := hhf
        returnedOk := fun r hr => by simp at hr }
  | pushing r =>
    simp only [MainPC.phase, MainPC.held] at hcols hjp hrp hip hwp
    simp only [stepMain] at h
    split at h
    · simp only [Option.some.injEq] at h
      subst h
      have hjc : jobsClosed = false := by simpa using hjp
      exact {
        cols := by
          simp only [inFlight, MainPC.held]
          rw [← hcols, withField_append]
          simp only [List.map_append, ← Multiset.coe_add, withField, List.filter_nil,
            List.map_nil]
          abel
        signingHead := hsh
        noReporting := hnr
        writerOk := hwok
        doneJobs := fun w hw hd => by
          have := (hdj w hw hd).1
          rw [hjc] at this
          exact absurd this (by simp)
        closedDone := hcd
        jobsPhase := by simpa [MainPC.phase] using hjp
        resultsPhase := by simpa [MainPC.phase] using hrp
        inputPhase := by simp [MainPC.phase]
        writerPhase := by simp [MainPC.phase]
        noErrors := hne
        workerCount := hwc
        headerFirst := hhf
        returnedOk := fun r hr => by simp at hr }
    · simp at h
  | waitWorkers =>
    simp only [MainPC.phase, MainPC.held] at hcols hjp hrp hip hwp
    simp only [stepMain] at h
    split at h
    · rename_i hall
      simp only [Option.some.injEq] at h
      subst h
      have hrc : resultsClosed = false := by simpa using hrp
      exact {
        cols := by simpa [inFlight, MainPC.held] using hcols
        signingHead := hsh
        noReporting := hnr
        writerOk := by
          rcases hwok with hw | ⟨-, hc, -⟩
          · exact Or.inl hw
          · rw [hrc] at hc; exact absurd hc (by simp)
        doneJobs := hdj
        closedDone := fun _ w hw => List.all_eq_true.mp hall w hw
        jobsPhase := by simpa [MainPC.phase] using hjp
        resultsPhase := by simp [MainPC.phase]
        inputPhase := fun _ => hip (by omega)
        writerPhase := by simp [MainPC.phase]
        noErrors := hne
        workerCount := hwc
        headerFirst := hhf
        returnedOk := fun r hr => by simp at hr }
    · simp at h
  | waitWriter =>
    simp only [MainPC.phase, MainPC.held] at hcols hjp hrp hip hwp
    cases writer with
    | done =>
      subst hne
      simp only [stepMain, Option.some.injEq] at h
      subst h
      exact {
        cols := by simpa [inFlight, MainPC.held] using hcols
        signingHead := hsh
        noReporting := hnr
        writerOk := hwok
        doneJobs := hdj
        closedDone := hcd
        jobsPhase := by simpa [MainPC.phase] using hjp
        resultsPhase := by simpa [MainPC.phase] using hrp
        inputPhase := fun _ => hip (by omega)
        writerPhase := fun _ => rfl
        noErrors := rfl
        workerCount := hwc
        headerFirst := hhf
        returnedOk := fun r hr => by
          simp only [MainPC.returned.injEq] at hr
          exact hr.symm }
    | receiving => simp [stepMain] at h
    | reporting e => simp [stepMain] at h
  | returned r =>
    simp [stepMain] at h

end StreamInv

section StreamInv

variable {σ E : Type}

theorem coe_cons_add {α : Type} (a : α) (l : List α) :
    (↑(a :: l) : Multiset α) = ↑[a] + ↑l := by
  rw [Multiset.coe_add]; rfl

theorem forall_mem_set {α : Type} (P : α → Prop) (ws : List α) (i : Nat) (w' : α)
    (hall : ∀ x ∈ ws, P x) (hw' : P w') : ∀ x ∈ ws.set i w', P x := by
  intro x hx
  rcases List.mem_or_eq_of_mem_set hx with hmem | rfl
  · exact hall x hmem
  · exact hw'

/-- A successful `signRow` on a record that starts with `firstCol` keeps field 0. -/
theorem signRow_head {σ E : Type} (Sprintf : String → String → String)
    (signFunc : SignFunc σ E) (template firstCol : String) (record out : Record) (s s' : σ)
    (hhead : record.head? = some firstCol)
    (h : signRow Sprintf signFunc template firstCol record s = (.ok out, s')) :
    out.head? = some firstCol ∧ 2 ≤ out.length := by
  cases record with
  | nil => simp at hhead
  | cons f fs =>
    simp only [List.head?_cons, Option.some.injEq] at hhead
    subst hhead
    obtain ⟨sig, -, ho⟩ := (signRow_ok_iff Sprintf signFunc template f (f :: fs) out s s').mp h
    rw [signed_shape] at ho
    subst ho
    simp

/-- When `signFunc` never fails, neither does `signRow`. -/
theorem signRow_ok_of_never_fails {σ E : Type} (Sprintf : String → String → String)
    (signFunc : SignFunc σ E) (template firstCol : String) (record : Record) (s : σ)
    (hsign : ∀ b st, ∃ sig st', signFunc b st = (.ok sig, st')) :
    ∃ out s', signRow Sprintf signFunc template firstCol record s = (.ok out, s') := by
  obtain ⟨sig, s', hs⟩ := hsign (Sprintf template firstCol).toUTF8 s
  exact ⟨_, s', (signRow_ok_iff Sprintf signFunc template firstCol record _ s s').mpr
    ⟨sig, hs, rfl⟩⟩

/-- A step of a worker keeps the invariant, when `signFunc` never fails. -/
theorem Inv_stepWorker (c : StreamCfg σ E) (hdr : Record) (data : List Record) (i : Nat)
    (st st' : Pipeline σ E)
    (hsign : ∀ b s, ∃ sig s', c.signFunc b s = (.ok sig, s'))
    (hinv : Inv c hdr data st) (h : stepWorker c i st = some st') : Inv c hdr data st' := by
  obtain ⟨input, main, jobs, jobsClosed, workers, results, resultsClosed, writer, flushCount,
    errors, sign, processedLines, output⟩ := st
  obtain ⟨hcols, hsh, hnr, hwok, hdj, hcd, hjp, hrp, hip, hwp, hne, hwc, hhf, hro⟩ := hinv
  simp only [inFlight] at hcols
  dsimp only at *
  cases hw : workers[i]? with
  | none => simp [stepWorker, hw] at h
  | some w =>
    have hmem : w ∈ workers := mem_of_getElem?_some workers i w hw
    have hset := fun w' => workersHeld_set workers i w w' hw
    have hrc : ¬ w.isDone = true → resultsClosed = false := by
      intro hnd
      cases hr : resultsClosed with
      | false => rfl
      | true => exact absurd (hcd hr w hmem) hnd
    cases w with
    | receiving =>
      cases jobs with
      | nil =>
        simp only [stepWorker, hw] at h
        split at h
        · rename_i hjc
          simp only [Option.some.injEq] at h
          subst h
          have hs := hset .done
          simp only [WorkerPC.held, Multiset.coe_nil, add_zero] at hs
          exact {
            cols := by simp only [inFlight]; rw [hs]; exact hcols
            signingHead := fun f r hm => by
              rcases List.mem_or_eq_of_mem_set hm with hm | hm
              · exact hsh f r hm
              · simp at hm
            noReporting := fun e hm => by
              rcases List.mem_or_eq_of_mem_set hm with hm | hm
              · exact hnr e hm
              · simp at hm
            writerOk := hwok
            doneJobs := fun _ _ _ => ⟨hjc, rfl⟩
            closedDone := fun hr => by
              have := hrc (by simp [WorkerPC.isDone]); simp [this] at hr
            jobsPhase := hjp
            resultsPhase := hrp
            inputPhase := hip
            writerPhase := hwp
            noErrors := hne
            workerCount := by simpa using hwc
            headerFirst := hhf
            returnedOk := hro }
        · simp at h
      | cons r rest =>
        have hnd : ∀ x ∈ workers, ¬ x.isDone = true := by
          intro x hx hd
          have := (hdj x hx hd).2
          simp at this
        cases r with
        | nil =>
          simp only [stepWorker, hw, Option.some.injEq] at h
          subst h
          exact {
            cols := by
              simp only [inFlight]
              rw [← hcols, withField_nil_cons]
            signingHead := hsh
            noReporting := hnr
            writerOk := hwok
            doneJobs := fun x hx hd => absurd hd (hnd x hx)
            closedDone := hcd
            jobsPhase := hjp
            resultsPhase := hrp
            inputPhase := hip
            writerPhase := hwp
            noErrors := hne
            workerCount := hwc
            headerFirst := hhf
            returnedOk := hro }
        | cons f fs =>
          simp only [stepWorker, hw, Option.some.injEq] at h
          subst h
          have hs := hset (.signing f (f :: fs))
          simp only [WorkerPC.held, Multiset.coe_nil, add_zero] at hs
          exact {
            cols := by
              simp only [inFlight]
              rw [← hcols, withField_cons_cons, hs, List.map_cons, List.head?_cons,
                coe_cons_add (some f) (List.map List.head? (withField rest))]
              abel
            signingHead := fun f' r' hm => by
              rcases List.mem_or_eq_of_mem_set hm with hm | hm
              · exact hsh f' r' hm
              · simp only [WorkerPC.signing.injEq] at hm
                rw [hm.1, hm.2]; rfl
            noReporting := fun e hm => by
              rcases List.mem_or_eq_of_mem_set hm with hm | hm
              · exact hnr e hm
              · simp at hm
            writerOk := hwok
            doneJobs := fun x hx hd => by
              rcases List.mem_or_eq_of_mem_set hx with hm | hm
              · exact absurd hd (hnd x hm)
              · subst hm; simp [WorkerPC.isDone] at hd
            closedDone := fun hr => by
              have := hrc (by simp [WorkerPC.isDone]); simp [this] at hr
            jobsPhase := hjp
            resultsPhase := hrp
            inputPhase := hip
            writerPhase := hwp
            noErrors := hne
            workerCount := by simpa using hwc
            headerFirst := hhf
            returnedOk := hro }
    | signing f r =>
      obtain ⟨out, s', hrow⟩ :=
        signRow_ok_of_never_fails c.Sprintf c.signFunc c.template f r sign hsign
      simp only [stepWorker, hw, hrow, Option.some.injEq] at h
      subst h
      have hhead := (signRow_head c.Sprintf c.signFunc c.template f r out sign s'
        (hsh f r hmem) hrow).1
      have hs := hset (.sending out)
      simp only [WorkerPC.held, hhead] at hs
      have hs' := add_right_cancel hs
      exact {
        cols := by simp only [inFlight]; rw [hs']; exact hcols
        signingHead := fun f' r' hm => by
          rcases List.mem_or_eq_of_mem_set hm with hm | hm
          · exact hsh f' r' hm
          · simp at hm
        noReporting := fun e hm => by
          rcases List.mem_or_eq_of_mem_set hm with hm | hm
          · exact hnr e hm
          · simp at hm
        writerOk := hwok
        doneJobs := fun x hx hd => by
          rcases List.mem_or_eq_of_mem_set hx with hm | hm
          · exact hdj x hm hd
          · subst hm; simp [WorkerPC.isDone] at hd
        closedDone := fun hr => by
          have := hrc (by simp [WorkerPC.isDone]); simp [this] at hr
        jobsPhase := hjp
        resultsPhase := hrp
        inputPhase := hip
        writerPhase := hwp
        noErrors := hne
        workerCount := by simpa using hwc
        headerFirst := hhf
        returnedOk := hro }
    | sending r =>
      simp only [stepWorker, hw] at h
      split at h
      · simp only [Option.some.injEq] at h
        subst h
        have hs := hset .counting
        simp only [WorkerPC.held, Multiset.coe_nil, add_zero] at hs
        have hrcf := hrc (by simp [WorkerPC.isDone])
        exact {
          cols := by
            simp only [inFlight]
            rw [← hcols, ← hs, List.map_append, ← Multiset.coe_add]
            simp only [List.map_cons, List.map_nil]
            abel
          signingHead := fun f' r' hm => by
            rcases List.mem_or_eq_of_mem_set hm with hm | hm
            · exact hsh f' r' hm
            · simp at hm
          noReporting := fun e hm => by
            rcases List.mem_or_eq_of_mem_set hm with hm | hm
            · exact hnr e hm
            · simp at hm
          writerOk := by
            rcases hwok with hwr | ⟨-, hc, -⟩
            · exact Or.inl hwr
            · rw [hrcf] at hc; exact absurd hc (by simp)
          doneJobs := fun x hx hd => by
            rcases List.mem_or_eq_of_mem_set hx with hm | hm
            · exact hdj x hm hd
            · subst hm; simp [WorkerPC.isDone] at hd
          closedDone := fun hr => by simp [hrcf] at hr
          jobsPhase := hjp
          resultsPhase := hrp
          inputPhase := hip
          writerPhase := hwp
          noErrors := hne
          workerCount := by simpa using hwc
          headerFirst := hhf
          returnedOk := hro }
      · simp at h
    | counting =>
      simp only [stepWorker, hw, Option.some.injEq] at h
      subst h
      have hs := hset .receiving
      simp only [WorkerPC.held, Multiset.coe_nil, add_zero] at hs
      exact {
        cols := by simp only [inFlight]; rw [hs]; exact hcols
        signingHead := fun f' r' hm => by
          rcases List.mem_or_eq_of_mem_set hm with hm | hm
          · exact hsh f' r' hm
          · simp at hm
        noReporting := fun e hm => by
          rcases List.mem_or_eq_of_mem_set hm with hm | hm
          · exact hnr e hm
          · simp at hm
        writerOk := hwok
        doneJobs := fun x hx hd => by
          rcases List.mem_or_eq_of_mem_set hx with hm | hm
          · exact hdj x hm hd
          · subst hm; simp [WorkerPC.isDone] at hd
        closedDone := fun hr => by
          have := hrc (by simp [WorkerPC.isDone]); simp [this] at hr
        jobsPhase := hjp
        resultsPhase := hrp
        inputPhase := hip
        writerPhase := hwp
        noErrors := hne
        workerCount := by simpa using hwc
        headerFirst := hhf
        returnedOk := hro }
    | reporting e => exact absurd hmem (hnr e)
    | done => simp [stepWorker, hw] at h

end StreamInv

section StreamInv

variable {σ E : Type}

/-- A step of the writer keeps the invariant, when `writer.Write` never fails. -/
theorem Inv_stepWriter (c : StreamCfg σ E) (hdr : Record) (data : List Record) (st st' : Pipeline σ E)
    (hsink : ∀ out r, c.writeErr out r = none)
    (hinv : Inv c hdr data st) (h : stepWriter c st = some st') : Inv c hdr data st' := by
  obtain ⟨input, main, jobs, jobsClosed, workers, results, resultsClosed, writer, flushCount,
    errors, sign, processedLines, output⟩ := st
  obtain ⟨hcols, hsh, hnr, hwok, hdj, hcd, hjp, hrp, hip, hwp, hne, hwc, hhf, hro⟩ := hinv
  simp only [inFlight] at hcols
  dsimp only at *
  cases writer with
  | receiving =>
    cases results with
    | nil =>
      simp only [stepWriter] at h
      split at h
      · rename_i hrc
        simp only [Option.some.injEq] at h
        subst h
        exact {
          cols := by simp only [inFlight]; exact hcols
          signingHead := hsh
          noReporting := hnr
          writerOk := Or.inr ⟨rfl, hrc, rfl⟩
          doneJobs := hdj
          closedDone := hcd
          jobsPhase := hjp
          resultsPhase := hrp
          inputPhase := hip
          writerPhase := fun _ => rfl
          noErrors := hne
          workerCount := hwc
          headerFirst := hhf
          returnedOk := hro }
      · simp at h
    | cons r rest =>
      simp only [stepWriter, hsink, Option.some.injEq] at h
      subst h
      have hlen : 1 ≤ output.length := by
        obtain ⟨rows, hr⟩ := hhf
        rw [hr]; simp
      exact {
        cols := by
          simp only [inFlight]
          rw [← hcols, List.drop_append_of_le_length hlen, List.map_append, ← Multiset.coe_add]
          simp only [List.map_cons, List.map_nil]
          rw [coe_cons_add (List.head? r) (List.map List.head? rest)]
          abel
        signingHead := hsh
        noReporting := hnr
        writerOk := Or.inl rfl
        doneJobs := hdj
        closedDone := hcd
        jobsPhase := hjp
        resultsPhase := hrp
        inputPhase := hip
        writerPhase := fun hp => by simpa using hwp hp
        noErrors := hne
        workerCount := hwc
        headerFirst := by
          obtain ⟨rows, hr⟩ := hhf
          exact ⟨rows ++ [r], by rw [hr]; rfl⟩
        returnedOk := fun r hr => by
          have hr' : main = .returned r := hr
          have := hwp (by rw [hr']; simp [MainPC.phase])
          simp at this }
  | reporting e => simp at hwok
  | done => simp [stepWriter] at h

/-- Every step keeps the invariant, when neither `signFunc` nor `writer.Write` fails. -/
theorem Inv_step (c : StreamCfg σ E) (hdr : Record) (data : List Record) (t : Tid) (st st' : Pipeline σ E)
    (hsign : ∀ b s, ∃ sig s', c.signFunc b s = (.ok sig, s'))
    (hsink : ∀ out r, c.writeErr out r = none)
    (hinv : Inv c hdr data st) (h : step c t st = some st') : Inv c hdr data st' := by
  cases t with
  | main => exact Inv_stepMain c hdr data st st' hinv h
  | worker i => exact Inv_stepWorker c hdr data i st st' hsign hinv h
  | writer => exact Inv_stepWriter c hdr data st st' hsink hinv h

/-- Every schedule keeps the invariant. -/
theorem Inv_run (c : StreamCfg σ E) (hdr : Record) (data : List Record)
    (hsign : ∀ b s, ∃ sig s', c.signFunc b s = (.ok sig, s'))
    (hsink : ∀ out r, c.writeErr out r = none) (schedule : List Tid) :
    ∀ st : Pipeline σ E, Inv c hdr data st → Inv c hdr data (run c schedule st) := by
  induction schedule with
  | nil => intro st hinv; exact hinv
  | cons t ts ih =>
    intro st hinv
    rw [run]
    cases hstep : step c t st with
    | none => exact ih st hinv
    | some st' => exact ih st' (Inv_step c hdr data t st st' hsign hsink hinv hstep)

/-- The states of `ProcessCSVStream` satisfy the invariant. -/
theorem Inv_ProcessCSVStream (c : StreamCfg σ E) (input : List Record) (s : σ)
    (schedule : List Tid) (st : Pipeline σ E)
    (hsign : ∀ b s, ∃ sig s', c.signFunc b s = (.ok sig, s'))
    (hsink : ∀ out r, c.writeErr out r = none)
    (h : ProcessCSVStream c input s schedule = .ok st) :
    ∃ (header : Record) (rest : List Record) (hpos : 0 < header.length),
      input = header :: rest ∧ Inv c (transformHeader header hpos) rest st := by
  unfold ProcessCSVStream at h
  cases hl : launch c input s with
  | error e => simp [hl] at h
  | ok st0 =>
    simp only [hl, Except.ok.injEq] at h
    subst h
    obtain ⟨header, rest, hpos, hin, hinv⟩ := Inv_launch c input s st0 hl
    exact ⟨header, rest, hpos, hin, Inv_run c _ _ hsign hsink schedule st0 hinv⟩

theorem workersHeld_all_done (ws : List (WorkerPC E)) (h : ∀ w ∈ ws, w.isDone = true) :
    workersHeld ws = [] := by
  induction ws with
  | nil => rfl
  | cons w ws ih =>
    have hw := h w (List.mem_cons_self _ _)
    cases w <;> simp [WorkerPC.isDone] at hw
    simp only [workersHeld, WorkerPC.held, List.nil_append]
    exact ih fun x hx => h x (List.mem_cons_of_mem _ hx)

/-- Once the function has returned (with a worker around), nothing is in flight: whatever
the invariant counts is in the output. -/
theorem Inv_returned (c : StreamCfg σ E) (hdr : Record) (data : List Record) (st : Pipeline σ E)
    (hN : 1 ≤ c.concurrency) (hinv : Inv c hdr data st) (r : Option E)
    (hret : st.main = .returned r) :
    (↑((st.output.drop 1).map List.head?) : Multiset (Option String)) =
      ↑((withField data).map List.head?) ∧
    st.results = [] ∧ st.jobs = [] ∧ st.input = [] ∧ (∀ w ∈ st.workers, w.isDone = true) ∧
    r = c.flushErr st.output := by
  obtain ⟨input, main, jobs, jobsClosed, workers, results, resultsClosed, writer, flushCount,
    errors, sign, processedLines, output⟩ := st
  obtain ⟨hcols, hsh, hnr, hwok, hdj, hcd, hjp, hrp, hip, hwp, hne, hwc, hhf, hro⟩ := hinv
  simp only [inFlight] at hcols
  dsimp only at *
  subst hret
  simp only [MainPC.phase, MainPC.held] at hcols hjp hrp hip hwp
  have hwd : writer = .done := hwp (by omega)
  have hrc : resultsClosed = true := hrp.mpr (by omega)
  have hres : results = [] := by
    rcases hwok with hw | ⟨-, -, hr⟩
    · rw [hwd] at hw; simp at hw
    · exact hr
  have hall := hcd hrc
  have hin : input = [] := hip (by omega)
  obtain ⟨w, hw⟩ : ∃ w, w ∈ workers := by
    cases workers with
    | nil => simp at hwc; omega
    | cons w ws => exact ⟨w, List.mem_cons_self _ _⟩
  have hj : jobs = [] := (hdj w hw (hall w hw)).2
  refine ⟨?_, hres, hj, hin, hall, ?_⟩
  · rw [← hcols, hres, hj, hin, workersHeld_all_done workers hall]
    simp [withField]
  · exact hro r rfl

end StreamInv

section StreamSeq

variable {σ E : Type}

/-- The index the loop starts from shows only in the errors. -/
theorem processRows_ok_index (Sprintf : String → String → String) (signFunc : SignFunc σ E)
    (template : String) (rows : List Record) : ∀ (i j : Nat) (s s' : σ) (out : List Record),
    processRows Sprintf signFunc template i rows s = (.ok out, s') →
      processRows Sprintf signFunc template j rows s = (.ok out, s') := by
  induction rows with
  | nil => intro i j s s' out h; simpa [processRows] using h
  | cons record rest ih =>
    intro i j s s' out h
    cases record with
    | nil =>
      rw [processRows_nil_row] at h ⊢
      rcases hq : processRows Sprintf signFunc template (i + 1) rest s with ⟨r1, s1⟩
      rw [hq] at h
      cases r1 with
      | error e => simp at h
      | ok o1 => rw [ih (i + 1) (j + 1) s s1 o1 hq]; exact h
    | cons f fs =>
      rw [processRows_cons_row] at h ⊢
      rcases hq0 : signRow Sprintf signFunc template f (f :: fs) s with ⟨r0, s0⟩
      rw [hq0] at h
      cases r0 with
      | error e => simp at h
      | ok o0 =>
        simp only at h ⊢
        rcases hq : processRows Sprintf signFunc template (i + 1) rest s0 with ⟨r1, s1⟩
        rw [hq] at h
        cases r1 with
        | error e => simp at h
        | ok o1 => rw [ih (i + 1) (j + 1) s0 s1 o1 hq]; exact h

/-- When `signFunc` never fails, the loop of `ProcessCSVRecords` succeeds. -/
theorem processRows_ok_of_never_fails (Sprintf : String → String → String)
    (signFunc : SignFunc σ E) (template : String)
    (hsign : ∀ b s, ∃ sig s', signFunc b s = (.ok sig, s')) (rows : List Record) :
    ∀ (i : Nat) (s : σ), ∃ out s', processRows Sprintf signFunc template i rows s = (.ok out, s') := by
  induction rows with
  | nil => intro i s; exact ⟨[], s, by simp [processRows]⟩
  | cons record rest ih =>
    intro i s
    cases record with
    | nil =>
      obtain ⟨o, s1, h1⟩ := ih (i + 1) s
      exact ⟨[] :: o, s1, by rw [processRows_nil_row, h1]⟩
    | cons f fs =>
      obtain ⟨o0, s0, h0⟩ :=
        signRow_ok_of_never_fails Sprintf signFunc template f (f :: fs) s hsign
      obtain ⟨o, s1, h1⟩ := ih (i + 1) s0
      exact ⟨o0 :: o, s1, by rw [processRows_cons_row, h0]; simp only; rw [h1]⟩

/-- The state in which the goroutines are launched, with one worker. -/
theorem SeqInv_launch (c : StreamCfg σ E) (header : Record) (rest : List Record) (s : σ)
    (st : Pipeline σ E) (hN : c.concurrency = 1)
    (hsign : ∀ b s, ∃ sig s', c.signFunc b s = (.ok sig, s'))
    (h : launch c (header :: rest) s = .ok st) : SeqInv c rest s st := by
  unfold launch at h
  simp only at h
  split at h
  · split at h
    · simp at h
    · simp only [Except.ok.injEq] at h
      subst h
      obtain ⟨out, s', hrun⟩ :=
        processRows_ok_of_never_fails c.Sprintf c.signFunc c.template hsign rest 1 s
      refine ⟨.receiving, out, out, s', by simp [hN], hrun, ?_, ?_⟩
      · simpa [WorkerPC.pending, MainPC.held] using hrun
      · simp [WorkerPC.sent]
  · simp at h

end StreamSeq

section StreamSeq

variable {σ E : Type}

/-- A step of the calling goroutine keeps the one-worker invariant. -/
theorem SeqInv_stepMain (c : StreamCfg σ E) (data : List Record) (s0 : σ)
    (st st' : Pipeline σ E) (hseq : SeqInv c data s0 st) (h : stepMain c st = some st') :
    SeqInv c data s0 st' := by
  obtain ⟨input, main, jobs, jobsClosed, workers, results, resultsClosed, writer, flushCount,
    errors, sign, processedLines, output⟩ := st
  obtain ⟨w, outAll, out1, sF, hws, hall, hpend, hout⟩ := hseq
  dsimp only at *
  cases main with
  | reading =>
    cases input with
    | nil =>
      simp only [stepMain, Option.some.injEq] at h
      subst h
      exact ⟨w, outAll, out1, sF, hws, hall, by simpa [MainPC.held] using hpend, hout⟩
    | cons r rest =>
      simp only [stepMain, Option.some.injEq] at h
      subst h
      exact ⟨w, outAll, out1, sF, hws, hall, by simpa [MainPC.held] using hpend, hout⟩
  | pushing r =>
    simp only [stepMain] at h
    split at h
    · simp only [Option.some.injEq] at h
      subst h
      exact ⟨w, outAll, out1, sF, hws, hall, by simpa [MainPC.held] using hpend, hout⟩
    · simp at h
  | waitWorkers =>
    simp only [stepMain] at h
    split at h
    · simp only [Option.some.injEq] at h
      subst h
      exact ⟨w, outAll, out1, sF, hws, hall, by simpa [MainPC.held] using hpend, hout⟩
    · simp at h
  | waitWriter =>
    cases writer with
    | done =>
      simp only [stepMain, Option.some.injEq] at h
      subst h
      exact ⟨w, outAll, out1, sF, hws, hall, by simpa [MainPC.held] using hpend, hout⟩
    | receiving => simp [stepMain] at h
    | reporting e => simp [stepMain] at h
  | returned r => simp [stepMain] at h

/-- A step of the writer keeps the one-worker invariant, when `writer.Write` never
fails. -/
theorem SeqInv_stepWriter (c : StreamCfg σ E) (hdr : Record) (data : List Record) (s0 : σ)
    (st st' : Pipeline σ E) (hsink : ∀ out r, c.writeErr out r = none)
    (hinv : Inv c hdr data st) (hseq : SeqInv c data s0 st)
    (h : stepWriter c st = some st') : SeqInv c data s0 st' := by
  obtain ⟨input, main, jobs, jobsClosed, workers, results, resultsClosed, writer, flushCount,
    errors, sign, processedLines, output⟩ := st
  obtain ⟨w, outAll, out1, sF, hws, hall, hpend, hout⟩ := hseq
  have hhf := hinv.headerFirst
  have hwok := hinv.writerOk
  dsimp only at *
  cases writer with
  | receiving =>
    cases results with
    | nil =>
      simp only [stepWriter] at h
      split at h
      · simp only [Option.some.injEq] at h
        subst h
        exact ⟨w, outAll, out1, sF, hws, hall, hpend, hout⟩
      · simp at h
    | cons r rest =>
      simp only [stepWriter, hsink, Option.some.injEq] at h
      subst h
      have hlen : 1 ≤ output.length := by
        obtain ⟨rows, hr⟩ := hhf
        rw [hr]; simp
      refine ⟨w, outAll, out1, sF, hws, hall, hpend, ?_⟩
      simp only
      rw [hout, List.drop_append_of_le_length hlen]
      simp
  | reporting e => simp at hwok
  | done => simp [stepWriter] at h

/-- A step of the worker keeps the one-worker invariant, when `signFunc` never fails. -/
theorem SeqInv_stepWorker (c : StreamCfg σ E) (hdr : Record) (data : List Record) (s0 : σ)
    (i : Nat) (st st' : Pipeline σ E)
    (hinv : Inv c hdr data st) (hseq : SeqInv c data s0 st)
    (h : stepWorker c i st = some st') : SeqInv c data s0 st' := by
  obtain ⟨input, main, jobs, jobsClosed, workers, results, resultsClosed, writer, flushCount,
    errors, sign, processedLines, output⟩ := st
  obtain ⟨w, outAll, out1, sF, hws, hall, hpend, hout⟩ := hseq
  have hsh := hinv.signingHead
  have hnr := hinv.noReporting
  dsimp only at *
  subst hws
  cases i with
  | succ j => simp [stepWorker] at h
  | zero =>
    have hw : [w][0]? = some w := rfl
    cases w with
    | receiving =>
      cases jobs with
      | nil =>
        simp only [stepWorker, hw] at h
        split at h
        · simp only [Option.some.injEq] at h
          subst h
          exact ⟨.done, outAll, out1, sF, rfl, hall,
            by simpa [WorkerPC.pending] using hpend, by simpa [WorkerPC.sent] using hout⟩
        · simp at h
      | cons r rest =>
        cases r with
        | nil =>
          simp only [stepWorker, hw, Option.some.injEq] at h
          subst h
          simp only [WorkerPC.pending, List.nil_append, List.cons_append] at hpend
          rw [processRows_nil_row] at hpend
          rcases hq : processRows c.Sprintf c.signFunc c.template (1 + 1)
            (rest ++ main.held ++ input) sign with ⟨r1, s1⟩
          rw [hq] at hpend
          cases r1 with
          | error e => simp at hpend
          | ok o =>
            simp only [Prod.mk.injEq, Except.ok.injEq] at hpend
            obtain ⟨rfl, rfl⟩ := hpend
            refine ⟨.receiving, outAll, o, s1, rfl, hall, ?_, ?_⟩
            · simp only [WorkerPC.pending, List.nil_append]
              exact processRows_ok_index c.Sprintf c.signFunc c.template _ _ 1 sign s1 o hq
            · rw [hout, withField_nil_cons]
        | cons f fs =>
          simp only [stepWorker, hw, Option.some.injEq] at h
          subst h
          exact ⟨.signing f (f :: fs), outAll, out1, sF, rfl, hall,
            by simpa [WorkerPC.pending] using hpend, by simpa [WorkerPC.sent] using hout⟩
    | signing f r =>
      have hhead := hsh f r (List.mem_singleton.mpr rfl)
      cases r with
      | nil => simp at hhead
      | cons f' fs =>
        simp only [List.head?_cons, Option.some.injEq] at hhead
        subst hhead
        simp only [WorkerPC.pending, List.cons_append, List.nil_append] at hpend
        rw [processRows_cons_row] at hpend
        rcases hq0 : signRow c.Sprintf c.signFunc c.template f' (f' :: fs) sign with ⟨r0, s1⟩
        rw [hq0] at hpend
        cases r0 with
        | error e => simp at hpend
        | ok o0 =>
          simp only at hpend
          rcases hq : processRows c.Sprintf c.signFunc c.template (1 + 1)
            (jobs ++ main.held ++ input) s1 with ⟨r1, s2⟩
          rw [hq] at hpend
          cases r1 with
          | error e => simp at hpend
          | ok o =>
            simp only [Prod.mk.injEq, Except.ok.injEq] at hpend
            obtain ⟨rfl, rfl⟩ := hpend
            simp only [stepWorker, hw, hq0, Option.some.injEq] at h
            subst h
            refine ⟨.sending o0, outAll, o, s2, rfl, hall, ?_, ?_⟩
            · simp only [WorkerPC.pending, List.nil_append]
              exact processRows_ok_index c.Sprintf c.signFunc c.template _ _ 1 s1 s2 o hq
            · have hlen := (signRow_head c.Sprintf c.signFunc c.template f' (f' :: fs) o0
                sign s1 rfl hq0).2
              cases o0 with
              | nil => simp at hlen
              | cons a b =>
                rw [hout, withField_cons_cons]
                simp [WorkerPC.sent]
    | sending r =>
      simp only [stepWorker, hw] at h
      split at h
      · simp only [Option.some.injEq] at h
        subst h
        exact ⟨.counting, outAll, out1, sF, rfl, hall,
          by simpa [WorkerPC.pending] using hpend, by simpa [WorkerPC.sent] using hout⟩
      · simp at h
    | counting =>
      simp only [stepWorker, hw, Option.some.injEq] at h
      subst h
      exact ⟨.receiving, outAll, out1, sF, rfl, hall,
        by simpa [WorkerPC.pending] using hpend, by simpa [WorkerPC.sent] using hout⟩
    | reporting e => exact absurd (List.mem_singleton.mpr rfl) (hnr e)
    | done => simp [stepWorker, hw] at h

end StreamSeq

section StreamLive

variable {σ E : Type}

theorem workersWeight_set (ws : List (WorkerPC E)) : ∀ (i : Nat) (w w' : WorkerPC E),
    ws[i]? = some w →
    workersWeight (ws.set i w') + w.weight = workersWeight ws + w'.weight := by
  induction ws with
  | nil => intro i w w' h; simp at h
  | cons x xs ih =>
    intro i w w' h
    cases i with
    | zero =>
      simp only [List.getElem?_cons_zero, Option.some.injEq] at h
      subst h
      simp only [List.set_cons_zero, workersWeight]
      omega
    | succ j =>
      simp only [List.getElem?_cons_succ] at h
      have := ih j w w' h
      simp only [List.set_cons_succ, workersWeight]
      omega

/-- Every step lowers the weight: no run goes on for ever. -/
theorem step_weight (c : StreamCfg σ E) (t : Tid) (st st' : Pipeline σ E)
    (h : step c t st = some st') : st'.weight < st.weight := by
  obtain ⟨input, main, jobs, jobsClosed, workers, results, resultsClosed, writer, flushCount,
    errors, sign, processedLines, output⟩ := st
  cases t with
  | main =>
    simp only [step] at h
    cases main with
    | reading =>
      cases input with
      | nil =>
        simp only [stepMain, Option.some.injEq] at h
        subst h
        simp [Pipeline.weight, MainPC.weight]
      | cons r rest =>
        simp only [stepMain, Option.some.injEq] at h
        subst h
        simp only [Pipeline.weight, MainPC.weight, List.length_cons]
        omega
    | pushing r =>
      simp only [stepMain] at h
      split at h
      · simp only [Option.some.injEq] at h
        subst h
        simp only [Pipeline.weight, MainPC.weight, List.length_append, List.length_singleton]
        omega
      · simp at h
    | waitWorkers =>
      simp only [stepMain] at h
      split at h
      · simp only [Option.some.injEq] at h
        subst h
        simp [Pipeline.weight, MainPC.weight]
      · simp at h
    | waitWriter =>
      cases writer with
      | done =>
        simp only [stepMain, Option.some.injEq] at h
        subst h
        simp [Pipeline.weight, MainPC.weight]
      | receiving => simp [stepMain] at h
      | reporting e => simp [stepMain] at h
    | returned r => simp [stepMain] at h
  | worker i =>
    simp only [step] at h
    cases hw : workers[i]? with
    | none => simp [stepWorker, hw] at h
    | some w =>
      have hset := fun w' => workersWeight_set workers i w w' hw
      cases w with
      | receiving =>
        cases jobs with
        | nil =>
          simp only [stepWorker, hw] at h
          split at h
          · simp only [Option.some.injEq] at h
            subst h
            have := hset .done
            simp only [Pipeline.weight, WorkerPC.weight] at this ⊢
            omega
          · simp at h
        | cons r rest =>
          cases r with
          | nil =>
            simp only [stepWorker, hw, Option.some.injEq] at h
            subst h
            simp only [Pipeline.weight, List.length_cons]
            omega
          | cons f fs =>
            simp only [stepWorker, hw, Option.some.injEq] at h
            subst h
            have := hset (.signing f (f :: fs))
            simp only [Pipeline.weight, WorkerPC.weight, List.length_cons] at this ⊢
            omega
      | signing f r =>
        simp only [stepWorker, hw] at h
        rcases hq : signRow c.Sprintf c.signFunc c.template f r sign with ⟨r0, s1⟩
        rw [hq] at h
        cases r0 with
        | error e =>
          simp only [Option.some.injEq] at h
          subst h
          have := hset (.reporting e)
          simp only [Pipeline.weight, WorkerPC.weight] at this ⊢
          omega
        | ok o =>
          simp only [Option.some.injEq] at h
          subst h
          have := hset (.sending o)
          simp only [Pipeline.weight, WorkerPC.weight] at this ⊢
          omega
      | sending r =>
        simp only [stepWorker, hw] at h
        split at h
        · simp only [Option.some.injEq] at h
          subst h
          have := hset .counting
          simp only [Pipeline.weight, WorkerPC.weight, List.length_append,
            List.length_singleton] at this ⊢
          omega
        · simp at h
      | counting =>
        simp only [stepWorker, hw, Option.some.injEq] at h
        subst h
        have := hset .receiving
        simp only [Pipeline.weight, WorkerPC.weight] at this ⊢
        omega
      | reporting e =>
        simp only [stepWorker, hw] at h
        split at h
        · simp only [Option.some.injEq] at h
          subst h
          have := hset .done
          simp only [Pipeline.weight, WorkerPC.weight] at this ⊢
          omega
        · simp at h
      | done => simp [stepWorker, hw] at h
  | writer =>
    simp only [step] at h
    cases writer with
    | receiving =>
      cases results with
      | nil =>
        simp only [stepWriter] at h
        split at h
        · simp only [Option.some.injEq] at h
          subst h
          simp [Pipeline.weight, WriterPC.weight]
        · simp at h
      | cons r rest =>
        simp only [stepWriter] at h
        cases hq : c.writeErr output r with
        | none =>
          simp only [hq, Option.some.injEq] at h
          subst h
          simp only [Pipeline.weight, WriterPC.weight, List.length_cons]
          omega
        | some e =>
          simp only [hq, Option.some.injEq] at h
          subst h
          simp only [Pipeline.weight, WriterPC.weight, List.length_cons]
          omega
    | reporting e =>
      simp only [stepWriter] at h
      split at h
      · simp only [Option.some.injEq] at h
        subst h
        simp [Pipeline.weight, WriterPC.weight]
      · simp at h
    | done => simp [stepWriter] at h

end StreamLive

section StreamLive

variable {σ E : Type}

/-- The writer can move when `results` holds a record, or is closed, and the writer is
not done. -/
theorem writer_can_move (c : StreamCfg σ E) (st : Pipeline σ E)
    (hw : st.writer = .receiving) (hr : st.results ≠ [] ∨ st.resultsClosed = true) :
    ∃ st', step c .writer st = some st' := by
  obtain ⟨input, main, jobs, jobsClosed, workers, results, resultsClosed, writer, flushCount,
    errors, sign, processedLines, output⟩ := st
  dsimp only at *
  subst hw
  cases results with
  | nil =>
    rcases hr with hr | hr
    · exact absurd rfl hr
    · subst hr
      exact ⟨_, by simp only [step, stepWriter]; rfl⟩
  | cons r rest =>
    cases hq : c.writeErr output r with
    | none => exact ⟨_, by simp only [step, stepWriter, hq]; rfl⟩
    | some e => exact ⟨_, by simp only [step, stepWriter, hq]; rfl⟩

/-- In a run without failures, while `results` is open, a worker that is not done can move,
or else the writer can, when `jobs` holds a record or is closed. -/
theorem worker_can_move (c : StreamCfg σ E) (hdr : Record) (data : List Record)
    (st : Pipeline σ E) (hinv : Inv c hdr data st) (i : Nat) (w : WorkerPC E)
    (hw : st.workers[i]? = some w) (hnd : ¬ w.isDone = true)
    (hrc : st.resultsClosed = false) (hj : st.jobs ≠ [] ∨ st.jobsClosed = true) :
    ∃ t st', step c t st = some st' := by
  have hmem : w ∈ st.workers := mem_of_getElem?_some st.workers i w hw
  have hwr : st.writer = .receiving := by
    rcases hinv.writerOk with h | ⟨-, h, -⟩
    · exact h
    · rw [hrc] at h; exact absurd h (by simp)
  cases w with
  | receiving =>
    cases hjobs : st.jobs with
    | nil =>
      rcases hj with hj | hj
      · exact absurd hjobs hj
      · exact ⟨.worker i, _, by simp only [step, stepWorker, hw, hjobs, hj]; rfl⟩
    | cons r rest =>
      cases r with
      | nil => exact ⟨.worker i, _, by simp only [step, stepWorker, hw, hjobs]; rfl⟩
      | cons f fs => exact ⟨.worker i, _, by simp only [step, stepWorker, hw, hjobs]; rfl⟩
  | signing f r =>
    rcases hq : signRow c.Sprintf c.signFunc c.template f r st.sign with ⟨r0, s1⟩
    cases r0 with
    | error e => exact ⟨.worker i, _, by simp only [step, stepWorker, hw, hq]; rfl⟩
    | ok o => exact ⟨.worker i, _, by simp only [step, stepWorker, hw, hq]; rfl⟩
  | sending r =>
    by_cases hfull : st.results.length < chanCap
    · exact ⟨.worker i, _, by simp only [step, stepWorker, hw, hfull]; rfl⟩
    · have hne : st.results ≠ [] := by
        intro he
        rw [he] at hfull
        exact hfull (by decide)
      obtain ⟨st', hs⟩ := writer_can_move c st hwr (Or.inl hne)
      exact ⟨.writer, st', hs⟩
  | counting => exact ⟨.worker i, _, by simp only [step, stepWorker, hw]; rfl⟩
  | reporting e => exact absurd hmem (hinv.noReporting e)
  | done => exact absurd rfl hnd

/-- In a run without failures and with a worker, some goroutine can move as long as the
function has not returned: no deadlock. -/
theorem can_move (c : StreamCfg σ E) (hdr : Record) (data : List Record)
    (st : Pipeline σ E) (hN : 1 ≤ c.concurrency) (hinv : Inv c hdr data st)
    (hrun : ∀ r, st.main ≠ .returned r) : ∃ t st', step c t st = some st' := by
  have hjp := hinv.jobsPhase
  have hrp := hinv.resultsPhase
  cases hm : st.main with
  | reading =>
    cases hin : st.input with
    | nil => exact ⟨.main, _, by simp only [step, stepMain, hm, hin]; rfl⟩
    | cons r rest => exact ⟨.main, _, by simp only [step, stepMain, hm, hin]; rfl⟩
  | pushing r =>
    by_cases hfull : st.jobs.length < chanCap
    · exact ⟨.main, _, by simp only [step, stepMain, hm, hfull]; rfl⟩
    · have hne : st.jobs ≠ [] := by
        intro he
        rw [he] at hfull
        exact hfull (by decide)
      simp only [hm, MainPC.phase] at hjp hrp
      have hjc : st.jobsClosed = false := by simpa using hjp
      have hrc : st.resultsClosed = false := by simpa using hrp
      obtain ⟨w, hw⟩ : ∃ w, st.workers[0]? = some w := by
        have := hinv.workerCount
        cases hws : st.workers with
        | nil => rw [hws] at this; simp at this; omega
        | cons w ws => exact ⟨w, by simp⟩
      have hnd : ¬ w.isDone = true := by
        intro hd
        have := (hinv.doneJobs w (mem_of_getElem?_some _ 0 w hw) hd).1
        rw [hjc] at this
        exact absurd this (by simp)
      exact worker_can_move c hdr data st hinv 0 w hw hnd hrc (Or.inl hne)
  | waitWorkers =>
    simp only [hm, MainPC.phase] at hjp hrp
    have hjc : st.jobsClosed = true := hjp.mpr (by omega)
    have hrc : st.resultsClosed = false := by simpa using hrp
    by_cases hall : st.workers.all WorkerPC.isDone = true
    · exact ⟨.main, _, by simp only [step, stepMain, hm, hall]; rfl⟩
    · obtain ⟨w, hmem, hnd⟩ : ∃ w ∈ st.workers, ¬ w.isDone = true := by
        by_contra hcon
        apply hall
        rw [List.all_eq_true]
        intro w hw
        by_contra hnd
        exact hcon ⟨w, hw, hnd⟩
      obtain ⟨i, hlt, hget⟩ := List.getElem_of_mem hmem
      have hw : st.workers[i]? = some w := by
        rw [List.getElem?_eq_getElem hlt, hget]
      exact worker_can_move c hdr data st hinv i w hw hnd hrc (Or.inr hjc)
  | waitWriter =>
    simp only [hm, MainPC.phase] at hjp hrp
    have hrc : st.resultsClosed = true := hrp.mpr (by omega)
    rcases hinv.writerOk with hw | ⟨hw, -, -⟩
    · obtain ⟨st', hs⟩ := writer_can_move c st hw (Or.inr hrc)
      exact ⟨.writer, st', hs⟩
    · exact ⟨.main, _, by simp only [step, stepMain, hm, hw]; rfl⟩
  | returned r => exact absurd hm (hrun r)

theorem run_append (c : StreamCfg σ E) (a b : List Tid) :
    ∀ st : Pipeline σ E, run c (a ++ b) st = run c b (run c a st) := by
  induction a with
  | nil => intro st; rfl
  | cons t ts ih =>
    intro st
    simp only [List.cons_append, run]
    cases step c t st with
    | none => exact ih st
    | some st' => exact ih st'

/-- In a run without failures and with a worker, every state can be led to the return of
the function: whatever was scheduled so far, scheduling on completes the run. -/
theorem run_completes (c : StreamCfg σ E) (hdr : Record) (data : List Record)
    (hN : 1 ≤ c.concurrency)
    (hsign : ∀ b s, ∃ sig s', c.signFunc b s = (.ok sig, s'))
    (hsink : ∀ out r, c.writeErr out r = none) :
    ∀ (n : Nat) (st : Pipeline σ E), st.weight ≤ n → Inv c hdr data st →
      ∃ more r, (run c more st).main = .returned r := by
  intro n
  induction n with
  | zero =>
    intro st hle hinv
    by_cases hret : ∃ r, st.main = .returned r
    · obtain ⟨r, hr⟩ := hret
      exact ⟨[], r, hr⟩
    · obtain ⟨t, st', hs⟩ := can_move c hdr data st hN hinv (fun r hr => hret ⟨r, hr⟩)
      have := step_weight c t st st' hs
      omega
  | succ n ih =>
    intro st hle hinv
    by_cases hret : ∃ r, st.main = .returned r
    · obtain ⟨r, hr⟩ := hret
      exact ⟨[], r, hr⟩
    · obtain ⟨t, st', hs⟩ := can_move c hdr data st hN hinv (fun r hr => hret ⟨r, hr⟩)
      have hlt := step_weight c t st st' hs
      obtain ⟨more, r, hr⟩ := ih st' (by omega) (Inv_step c hdr data t st st' hsign hsink hinv hs)
      exact ⟨t :: more, r, by simp only [run, hs]; exact hr⟩

end StreamLive

section StreamClaims

variable {σ E : Type}

theorem firstCols_withField (l : List Record) : firstCols (withField l) = firstCols l := by
  induction l with
  | nil => rfl
  | cons r rest ih =>
    cases r with
    | nil => rw [withField_nil_cons, ih]; rfl
    | cons f fs => rw [withField_cons_cons]; simp only [firstCols, List.filterMap_cons,
        List.head?_cons] at ih ⊢; rw [ih]

theorem firstCols_eq_filterMap_id (l : List Record) :
    firstCols l = (l.map List.head?).filterMap id := by
  rw [List.filterMap_map]; rfl

theorem withField_eq_self (l : List Record) (h : ∀ r ∈ l, r ≠ []) : withField l = l := by
  induction l with
  | nil => rfl
  | cons r rest ih =>
    cases r with
    | nil => exact absurd rfl (h [] (List.mem_cons_self _ _))
    | cons f fs =>
      rw [withField_cons_cons, ih fun x hx => h x (List.mem_cons_of_mem _ hx)]

theorem transformHeader_ne_nil (header : Record) (h : 0 < header.length) :
    transformHeader header h ≠ [] := by
  cases header with
  | nil => simp at h
  | cons h0 t =>
    by_cases hmem : "sign-String" ∈ h0 :: t
    · rw [transformHeader_of_mem _ h hmem]; simp
    · rw [transformHeader_of_not_mem h0 t h hmem]; simp

/-- The loop of `ProcessCSVRecords` keeps the field-0 values, in order, and returns a row
without fields only for a row without fields. -/
theorem processRows_firstCols (Sprintf : String → String → String) (signFunc : SignFunc σ E)
    (template : String) (rows : List Record) : ∀ (i : Nat) (s s' : σ) (out : List Record),
    processRows Sprintf signFunc template i rows s = (.ok out, s') →
      firstCols out = firstCols rows ∧ ((∀ r ∈ rows, r ≠ []) → ∀ r ∈ out, r ≠ []) := by
  induction rows with
  | nil =>
    intro i s s' out h
    simp only [processRows, Prod.mk.injEq, Except.ok.injEq] at h
    rw [← h.1]
    exact ⟨rfl, fun _ r hr => by simp at hr⟩
  | cons record rest ih =>
    intro i s s' out h
    cases record with
    | nil =>
      rw [processRows_nil_row] at h
      rcases hq : processRows Sprintf signFunc template (i + 1) rest s with ⟨r1, s1⟩
      rw [hq] at h
      cases r1 with
      | error e => simp at h
      | ok o1 =>
        simp only [Prod.mk.injEq, Except.ok.injEq] at h
        rw [← h.1]
        refine ⟨?_, fun hall => absurd rfl (hall [] (List.mem_cons_self _ _))⟩
        have := (ih (i + 1) s s1 o1 hq).1
        simpa [firstCols] using this
    | cons f fs =>
      rw [processRows_cons_row] at h
      rcases hq0 : signRow Sprintf signFunc template f (f :: fs) s with ⟨r0, s0⟩
      rw [hq0] at h
      cases r0 with
      | error e => simp at h
      | ok o0 =>
        simp only at h
        rcases hq : processRows Sprintf signFunc template (i + 1) rest s0 with ⟨r1, s1⟩
        rw [hq] at h
        cases r1 with
        | error e => simp at h
        | ok o1 =>
          simp only [Prod.mk.injEq, Except.ok.injEq] at h
          rw [← h.1]
          obtain ⟨hhead, hlen⟩ := signRow_head Sprintf signFunc template f (f :: fs) o0 s s0 rfl hq0
          obtain ⟨ih1, ih2⟩ := ih (i + 1) s0 s1 o1 hq
          constructor
          · simp only [firstCols, List.filterMap_cons, hhead, List.head?_cons] at ih1 ⊢
            rw [ih1]
          · intro hall r hr
            rcases List.mem_cons.mp hr with rfl | hr
            · intro he; rw [he] at hlen; simp at hlen
            · exact ih2 (fun x hx => hall x (List.mem_cons_of_mem _ hx)) r hr

/-- Every schedule keeps the one-worker invariant. -/
theorem SeqInv_run (c : StreamCfg σ E) (hdr : Record) (data : List Record) (s0 : σ)
    (hsign : ∀ b s, ∃ sig s', c.signFunc b s = (.ok sig, s'))
    (hsink : ∀ out r, c.writeErr out r = none) (schedule : List Tid) :
    ∀ st : Pipeline σ E, Inv c hdr data st → SeqInv c data s0 st →
      Inv c hdr data (run c schedule st) ∧ SeqInv c data s0 (run c schedule st) := by
  induction schedule with
  | nil => intro st hinv hseq; exact ⟨hinv, hseq⟩
  | cons t ts ih =>
    intro st hinv hseq
    rw [run]
    cases hstep : step c t st with
    | none => exact ih st hinv hseq
    | some st' =>
      refine ih st' (Inv_step c hdr data t st st' hsign hsink hinv hstep) ?_
      cases t with
      | main => exact SeqInv_stepMain c data s0 st st' hseq hstep
      | worker i => exact SeqInv_stepWorker c hdr data s0 i st st' hinv hseq hstep
      | writer => exact SeqInv_stepWriter c hdr data s0 st st' hsink hinv hseq hstep

end StreamClaims

section StreamClaims

variable {σ E : Type}

/-- Whatever was scheduled so far, scheduling on leads `ProcessCSVStream` to its return,
in a run without failures and with a worker. -/
theorem ProcessCSVStream_completes (c : StreamCfg σ E) (input : List Record) (s : σ)
    (hN : 1 ≤ c.concurrency)
    (hsign : ∀ b st, ∃ sig st', c.signFunc b st = (.ok sig, st'))
    (hsink : ∀ out r, c.writeErr out r = none)
    (schedule : List Tid) (st : Pipeline σ E)
    (hrun : ProcessCSVStream c input s schedule = .ok st) :
    ∃ more st' r, ProcessCSVStream c input s (schedule ++ more) = .ok st' ∧
      st'.main = .returned r := by
  obtain ⟨header, rest, hpos, -, hinv⟩ :=
    Inv_ProcessCSVStream c input s schedule st hsign hsink hrun
  obtain ⟨more, r, hr⟩ :=
    run_completes c _ rest hN hsign hsink st.weight st (Nat.le_refl _) hinv
  refine ⟨more, run c more st, r, ?_, hr⟩
  unfold ProcessCSVStream at hrun ⊢
  cases hl : launch c input s with
  | error e => simp [hl] at hrun
  | ok st0 =>
    simp only [hl, Except.ok.injEq] at hrun ⊢
    rw [run_append, hrun]

/-- On a header without fields `ProcessCSVStream` panics at `header[0]`, before it writes
or reads anything else. -/
theorem ProcessCSVStream_empty_header (c : StreamCfg σ E) (rest : List Record) (s : σ)
    (schedule : List Tid) :
    ProcessCSVStream c ([] :: rest) s schedule = .error .panicked := by
  simp [ProcessCSVStream, launch]

/-- On an input without records `ProcessCSVStream` returns the error of the first
`reader.Read()`. -/
theorem ProcessCSVStream_no_record (c : StreamCfg σ E) (s : σ) (schedule : List Tid) :
    ProcessCSVStream c [] s schedule = .error (.returned c.readErr) := by
  simp [ProcessCSVStream, launch]

/-- At the return of a run without failures and with a worker, under every schedule: the
data rows written are as many as the data records read that have a field, with the same
multiset of field-0 values (a record without fields would be skipped at csv.go:129). -/
theorem ProcessCSVStream_returned_rows (c : StreamCfg σ E) (input : List Record)
    (s : σ) (hN : 1 ≤ c.concurrency)
    (hsign : ∀ b st, ∃ sig st', c.signFunc b st = (.ok sig, st'))
    (hsink : ∀ out r, c.writeErr out r = none)
    (schedule : List Tid) (st : Pipeline σ E) (r : Option E)
    (hrun : ProcessCSVStream c input s schedule = .ok st) (hret : st.main = .returned r) :
    (st.output.drop 1).length = (withField (input.drop 1)).length ∧
    (↑(firstCols (st.output.drop 1)) : Multiset String) = ↑(firstCols (input.drop 1)) ∧
    r = c.flushErr st.output := by
  obtain ⟨header, rest, hpos, rfl, hinv⟩ :=
    Inv_ProcessCSVStream c input s schedule st hsign hsink hrun
  obtain ⟨hcols, -, -, -, -, hr⟩ := Inv_returned c _ rest st hN hinv r hret
  simp only [List.drop_succ_cons, List.drop_zero]
  have hlen : (st.output.drop 1).length = (withField rest).length := by
    have := congrArg Multiset.card hcols
    simpa using this
  refine ⟨hlen, ?_, hr⟩
  have := congrArg (Multiset.filterMap id) hcols
  rw [Multiset.filterMap_coe, Multiset.filterMap_coe, ← firstCols_eq_filterMap_id,
    ← firstCols_eq_filterMap_id, firstCols_withField] at this
  exact this

theorem firstCols_length (l : List Record) (h : ∀ r ∈ l, r ≠ []) :
    (firstCols l).length = l.length := by
  induction l with
  | nil => rfl
  | cons r rest ih =>
    cases r with
    | nil => exact absurd rfl (h [] (List.mem_cons_self _ _))
    | cons f fs =>
      simp only [firstCols, List.filterMap_cons, List.head?_cons, List.length_cons] at ih ⊢
      rw [ih fun x hx => h x (List.mem_cons_of_mem _ hx)]

/-- C7: for every input record sequence (every data record with at least one field, as
every record `reader.Read()` returns has), every concurrency N >= 1 and every schedule of
the producer, the workers and the writer, when neither `signFunc` nor the writer fails:
at the return the number of data rows written is the number of data records read and the
multiset of their field-0 values is the same, every data record contributing its field 0;
and whatever was scheduled so far, the run can be scheduled on to its return. -/
theorem ProcessCSVStream_keeps_records (c : StreamCfg σ E) (input : List Record)
    (s : σ) (hN : 1 ≤ c.concurrency)
    (hsign : ∀ b st, ∃ sig st', c.signFunc b st = (.ok sig, st'))
    (hsink : ∀ out r, c.writeErr out r = none)
    (hrec : ∀ record ∈ input.drop 1, record ≠ []) :
    (∀ (schedule : List Tid) (st : Pipeline σ E) (r : Option E),
      ProcessCSVStream c input s schedule = .ok st → st.main = .returned r →
        (st.output.drop 1).length = (input.drop 1).length ∧
        (↑(firstCols (st.output.drop 1)) : Multiset String) = ↑(firstCols (input.drop 1)) ∧
        (firstCols (input.drop 1)).length = (input.drop 1).length ∧
        (firstCols (st.output.drop 1)).length = (st.output.drop 1).length) ∧
    (∀ (schedule : List Tid) (st : Pipeline σ E),
      ProcessCSVStream c input s schedule = .ok st →
        ∃ more st' r, ProcessCSVStream c input s (schedule ++ more) = .ok st' ∧
          st'.main = .returned r) := by
  refine ⟨?_, ProcessCSVStream_completes c input s hN hsign hsink⟩
  intro schedule st r hrun hret
  obtain ⟨hlen, hms, -⟩ :=
    ProcessCSVStream_returned_rows c input s hN hsign hsink schedule st r hrun hret
  rw [withField_eq_self _ hrec] at hlen
  have hin := firstCols_length (input.drop 1) hrec
  refine ⟨hlen, hms, hin, ?_⟩
  have := congrArg Multiset.card hms
  simp only [Multiset.coe_card] at this
  rw [this, hin, hlen]

theorem ProcessCSVStream_keeps_records_witness :
    ((run (sampleCfg 2) (roundRobin 12) trioStart).output.drop 1).length =
        ([["id"], ["a"], ["b", "x"], ["c"]].drop 1 : List Record).length ∧
      (↑(firstCols ((run (sampleCfg 2) (roundRobin 12) trioStart).output.drop 1)) :
          Multiset String) = ↑(firstCols ([["id"], ["a"], ["b", "x"], ["c"]].drop 1)) ∧
      (firstCols ([["id"], ["a"], ["b", "x"], ["c"]].drop 1)).length =
        ([["id"], ["a"], ["b", "x"], ["c"]].drop 1 : List Record).length ∧
      (firstCols ((run (sampleCfg 2) (roundRobin 12) trioStart).output.drop 1)).length =
        ((run (sampleCfg 2) (roundRobin 12) trioStart).output.drop 1).length :=
  (ProcessCSVStream_keeps_records (sampleCfg 2) [["id"], ["a"], ["b", "x"], ["c"]] 0
      (by decide) (fun _ st => ⟨"c2ln", st + 1, rfl⟩) (fun _ _ => rfl) (by decide)).1
    (roundRobin 12) (run (sampleCfg 2) (roundRobin 12) trioStart) none rfl rfl

end StreamClaims

section StreamClaims

variable {σ E : Type}

theorem map_head?_eq_firstCols (l : List Record) (h : ∀ r ∈ l, r ≠ []) :
    l.map List.head? = (firstCols l).map some := by
  induction l with
  | nil => rfl
  | cons r rest ih =>
    cases r with
    | nil => exact absurd rfl (h [] (List.mem_cons_self _ _))
    | cons f fs =>
      simp only [firstCols, List.filterMap_cons, List.head?_cons, List.map_cons] at ih ⊢
      rw [ih fun x hx => h x (List.mem_cons_of_mem _ hx)]

/-- At the return of a run with one worker and without failures, under every schedule:
the records written are those `ProcessCSVRecords` returns on the same input, in the same
order, with the same signatures and final signing state, without the records that have no
field (they would be skipped at csv.go:129). -/
theorem ProcessCSVStream_one_worker_returned (c : StreamCfg σ E) (input : List Record)
    (s : σ) (hN : c.concurrency = 1)
    (hsign : ∀ b st, ∃ sig st', c.signFunc b st = (.ok sig, st'))
    (hsink : ∀ out r, c.writeErr out r = none)
    (schedule : List Tid) (st : Pipeline σ E) (r : Option E)
    (hrun : ProcessCSVStream c input s schedule = .ok st) (hret : st.main = .returned r) :
    ∃ out, ProcessCSVRecords c.Sprintf input c.signFunc c.template s = (.ok out, st.sign) ∧
      st.output = withField out ∧
      firstCols (st.output.drop 1) = firstCols (input.drop 1) ∧
      ((∀ record ∈ input.drop 1, record ≠ []) → st.output = out) := by
  unfold ProcessCSVStream at hrun
  cases hl : launch c input s with
  | error e => simp [hl] at hrun
  | ok st0 =>
    simp only [hl, Except.ok.injEq] at hrun
    subst hrun
    obtain ⟨header, rest, hpos, rfl, hinv0⟩ := Inv_launch c input s st0 hl
    have hseq0 := SeqInv_launch c header rest s st0 hN hsign hl
    obtain ⟨hinv, hseq⟩ := SeqInv_run c _ rest s hsign hsink schedule st0 hinv0 hseq0
    obtain ⟨-, hres, hjobs, hin, hdone, -⟩ :=
      Inv_returned c _ rest _ (by omega) hinv r hret
    obtain ⟨w, outAll, out1, sF, hws, hall, hpend, hout⟩ := hseq
    have hwd : w.isDone = true := hdone w (by rw [hws]; exact List.mem_singleton.mpr rfl)
    cases w <;> simp [WorkerPC.isDone] at hwd
    simp only [WorkerPC.pending, WorkerPC.sent, hjobs, hin, hret, MainPC.held, hres,
      List.append_nil, processRows, Prod.mk.injEq, Except.ok.injEq] at hpend hout
    obtain ⟨rfl, rfl⟩ := hpend
    obtain ⟨rows, hrows⟩ := hinv.headerFirst
    have hne : header ≠ [] := by
      intro he; rw [he] at hpos; simp at hpos
    have hrec : ProcessCSVRecords c.Sprintf (header :: rest) c.signFunc c.template s =
        (.ok (transformHeader header hpos :: outAll), (run c schedule st0).sign) := by
      rw [ProcessCSVRecords_cons c.Sprintf c.signFunc c.template header rest s hne, hall]
    have hdrop : (run c schedule st0).output.drop 1 = withField outAll := by
      rw [hout]; simp [withField]
    have hwf : withField (transformHeader header hpos :: outAll) =
        transformHeader header hpos :: withField outAll := by
      have := transformHeader_ne_nil header hpos
      cases hth : transformHeader header hpos with
      | nil => exact absurd hth this
      | cons a b => rw [withField_cons_cons]
    have houtput : (run c schedule st0).output =
        withField (transformHeader header hpos :: outAll) := by
      rw [hwf, ← hdrop, hrows]; rfl
    obtain ⟨hfc, hnn⟩ := processRows_firstCols c.Sprintf c.signFunc c.template rest 1 s _ outAll hall
    refine ⟨_, hrec, houtput, ?_, ?_⟩
    · rw [hdrop, firstCols_withField, hfc]; rfl
    · intro hallne
      rw [houtput, hwf, withField_eq_self outAll (hnn hallne)]


end StreamClaims

section StreamProv

variable {σ E : Type}

/-- The state in which the goroutines are launched. -/
theorem Prov_launch (c : StreamCfg σ E) (header : Record) (rest : List Record) (s : σ)
    (st : Pipeline σ E) (h : launch c (header :: rest) s = .ok st) : Prov c rest st := by
  unfold launch at h
  simp only at h
  split at h
  · split at h
    · simp at h
    · simp only [Except.ok.injEq] at h
      subst h
      exact {
        unread := fun r hr => hr
        queued := fun r hr => by simp at hr
        heldMain := fun r hr => by simp [MainPC.held] at hr
        toSign := fun f r hm => absurd (List.eq_of_mem_replicate hm) (by simp)
        toSend := fun r hm => absurd (List.eq_of_mem_replicate hm) (by simp)
        inResults := fun r hr => by simp at hr
        written := fun r hr => by simp at hr
        hasHeader := by simp }
  · simp at h

/-- Every step keeps track of where the records come from. -/
theorem Prov_step (c : StreamCfg σ E) (data : List Record) (t : Tid) (st st' : Pipeline σ E)
    (hp : Prov c data st) (h : step c t st = some st') : Prov c data st' := by
  obtain ⟨input, main, jobs, jobsClosed, workers, results, resultsClosed, writer, flushCount,
    errors, sign, processedLines, output⟩ := st
  obtain ⟨hun, hq, hm, hsg, hsd, hres, hwr, hhd⟩ := hp
  dsimp only at *
  cases t with
  | main =>
    simp only [step] at h
    cases main with
    | reading =>
      cases input with
      | nil =>
        simp only [stepMain, Option.some.injEq] at h
        subst h
        exact ⟨hun, hq, fun r hr => by simp [MainPC.held] at hr, hsg, hsd, hres, hwr, hhd⟩
      | cons r rest =>
        simp only [stepMain, Option.some.injEq] at h
        subst h
        refine ⟨fun x hx => hun x (List.mem_cons_of_mem _ hx), hq, ?_, hsg, hsd, hres, hwr, hhd⟩
        intro x hx
        simp only [MainPC.held, List.mem_singleton] at hx
        subst hx
        exact hun x (List.mem_cons_self _ _)
    | pushing r =>
      simp only [stepMain] at h
      split at h
      · simp only [Option.some.injEq] at h
        subst h
        refine ⟨hun, ?_, fun x hx => by simp [MainPC.held] at hx, hsg, hsd, hres, hwr, hhd⟩
        intro x hx
        rcases List.mem_append.mp hx with hx | hx
        · exact hq x hx
        · exact hm x (by simpa [MainPC.held] using hx)
      · simp at h
    | waitWorkers =>
      simp only [stepMain] at h
      split at h
      · simp only [Option.some.injEq] at h
        subst h
        exact ⟨hun, hq, fun r hr => by simp [MainPC.held] at hr, hsg, hsd, hres, hwr, hhd⟩
      · simp at h
    | waitWriter =>
      cases writer with
      | done =>
        simp only [stepMain, Option.some.injEq] at h
        subst h
        exact ⟨hun, hq, fun r hr => by simp [MainPC.held] at hr, hsg, hsd, hres, hwr, hhd⟩
      | receiving => simp [stepMain] at h
      | reporting e => simp [stepMain] at h
    | returned r => simp [stepMain] at h
  | worker i =>
    simp only [step] at h
    cases hw : workers[i]? with
    | none => simp [stepWorker, hw] at h
    | some w =>
      have hmem : w ∈ workers := mem_of_getElem?_some workers i w hw
      have hsg' : ∀ w', (∀ f r, w' = WorkerPC.signing f r → r ∈ data ∧ r.head? = some f) →
          ∀ f r, WorkerPC.signing f r ∈ workers.set i w' → r ∈ data ∧ r.head? = some f := by
        intro w' hw' f r hx
        rcases List.mem_or_eq_of_mem_set hx with hx | hx
        · exact hsg f r hx
        · exact hw' f r hx.symm
      have hsd' : ∀ w', (∀ r, w' = WorkerPC.sending r → SignedFrom c data r) →
          ∀ r, WorkerPC.sending r ∈ workers.set i w' → SignedFrom c data r := by
        intro w' hw' r hx
        rcases List.mem_or_eq_of_mem_set hx with hx | hx
        · exact hsd r hx
        · exact hw' r hx.symm
      cases w with
      | receiving =>
        cases jobs with
        | nil =>
          simp only [stepWorker, hw] at h
          split at h
          · simp only [Option.some.injEq] at h
            subst h
            exact ⟨hun, hq, hm, hsg' _ (fun f r he => by simp at he),
              hsd' _ (fun r he => by simp at he), hres, hwr, hhd⟩
          · simp at h
        | cons r rest =>
          cases r with
          | nil =>
            simp only [stepWorker, hw, Option.some.injEq] at h
            subst h
            exact ⟨hun, fun x hx => hq x (List.mem_cons_of_mem _ hx), hm, hsg, hsd, hres, hwr,
              hhd⟩
          | cons f fs =>
            simp only [stepWorker, hw, Option.some.injEq] at h
            subst h
            refine ⟨hun, fun x hx => hq x (List.mem_cons_of_mem _ hx), hm, hsg' _ ?_,
              hsd' _ (fun r he => by simp at he), hres, hwr, hhd⟩
            intro f' r' he
            simp only [WorkerPC.signing.injEq] at he
            obtain ⟨rfl, rfl⟩ := he
            exact ⟨hq _ (List.mem_cons_self _ _), rfl⟩
      | signing f r =>
        obtain ⟨hrd, hhead⟩ := hsg f r hmem
        cases r with
        | nil => simp at hhead
        | cons f' fs =>
          simp only [List.head?_cons, Option.some.injEq] at hhead
          subst hhead
          simp only [stepWorker, hw] at h
          rcases hq0 : signRow c.Sprintf c.signFunc c.template f' (f' :: fs) sign with ⟨r0, s1⟩
          rw [hq0] at h
          cases r0 with
          | error e =>
            simp only [Option.some.injEq] at h
            subst h
            exact ⟨hun, hq, hm, hsg' _ (fun f r he => by simp at he),
              hsd' _ (fun r he => by simp at he), hres, hwr, hhd⟩
          | ok o =>
            simp only [Option.some.injEq] at h
            subst h
            refine ⟨hun, hq, hm, hsg' _ (fun f r he => by simp at he), hsd' _ ?_, hres, hwr,
              hhd⟩
            intro r he
            simp only [WorkerPC.sending.injEq] at he
            subst he
            exact ⟨f', fs, sign, s1, hrd, hq0⟩
      | sending r =>
        simp only [stepWorker, hw] at h
        split at h
        · simp only [Option.some.injEq] at h
          subst h
          refine ⟨hun, hq, hm, hsg' _ (fun f r he => by simp at he),
            hsd' _ (fun r he => by simp at he), ?_, hwr, hhd⟩
          intro x hx
          rcases List.mem_append.mp hx with hx | hx
          · exact hres x hx
          · rw [List.mem_singleton.mp hx]; exact hsd r hmem
        · simp at h
      | counting =>
        simp only [stepWorker, hw, Option.some.injEq] at h
        subst h
        exact ⟨hun, hq, hm, hsg' _ (fun f r he => by simp at he),
          hsd' _ (fun r he => by simp at he), hres, hwr, hhd⟩
      | reporting e =>
        simp only [stepWorker, hw] at h
        split at h
        · simp only [Option.some.injEq] at h
          subst h
          exact ⟨hun, hq, hm, hsg' _ (fun f r he => by simp at he),
            hsd' _ (fun r he => by simp at he), hres, hwr, hhd⟩
        · simp at h
      | done => simp [stepWorker, hw] at h
  | writer =>
    simp only [step] at h
    cases writer with
    | receiving =>
      cases results with
      | nil =>
        simp only [stepWriter] at h
        split at h
        · simp only [Option.some.injEq] at h
          subst h
          exact ⟨hun, hq, hm, hsg, hsd, hres, hwr, hhd⟩
        · simp at h
      | cons r rest =>
        simp only [stepWriter] at h
        cases hqw : c.writeErr output r with
        | none =>
          simp only [hqw, Option.some.injEq] at h
          subst h
          refine ⟨hun, hq, hm, hsg, hsd, fun x hx => hres x (List.mem_cons_of_mem _ hx), ?_,
            by rw [List.length_append]; omega⟩
          intro x hx
          simp only at hx
          rw [List.drop_append_of_le_length hhd] at hx
          rcases List.mem_append.mp hx with hx | hx
          · exact hwr x hx
          · rw [List.mem_singleton.mp hx]; exact hres r (List.mem_cons_self _ _)
        | some e =>
          simp only [hqw, Option.some.injEq] at h
          subst h
          exact ⟨hun, hq, hm, hsg, hsd, fun x hx => hres x (List.mem_cons_of_mem _ hx), hwr, hhd⟩
    | reporting e =>
      simp only [stepWriter] at h
      split at h
      · simp only [Option.some.injEq] at h
        subst h
        exact ⟨hun, hq, hm, hsg, hsd, hres, hwr, hhd⟩
      · simp at h
    | done => simp [stepWriter] at h

/-- Every schedule keeps track of where the records come from. -/
theorem Prov_run (c : StreamCfg σ E) (data : List Record) (schedule : List Tid) :
    ∀ st : Pipeline σ E, Prov c data st → Prov c data (run c schedule st) := by
  induction schedule with
  | nil => intro st hp; exact hp
  | cons t ts ih =>
    intro st hp
    rw [run]
    cases hstep : step c t st with
    | none => exact ih st hp
    | some st' => exact ih st' (Prov_step c data t st st' hp hstep)

/-- In every state of every run of `ProcessCSVStream`, with or without failures, each
data row written is what `signRow` returned for an input data record that has a field. -/
theorem ProcessCSVStream_rows_signed (c : StreamCfg σ E) (input : List Record) (s : σ)
    (schedule : List Tid) (st : Pipeline σ E)
    (h : ProcessCSVStream c input s schedule = .ok st) :
    ∀ row ∈ st.output.drop 1, SignedFrom c (input.drop 1) row := by
  unfold ProcessCSVStream at h
  cases hl : launch c input s with
  | error e => simp [hl] at h
  | ok st0 =>
    simp only [hl, Except.ok.injEq] at h
    subst h
    cases input with
    | nil => simp [launch] at hl
    | cons header rest =>
      exact (Prov_run c rest schedule st0 (Prov_launch c header rest s st0 hl)).written

end StreamProv

section RowClaims

variable {σ E : Type} (Sprintf : String → String → String) (signFunc : SignFunc σ E)
  (template : String)

/-- C1: in a successful `ProcessCSVRecords`, every data row `i` that had a field has, in
field 1 of the output, the string that `signFunc` returned on the bytes of the template
rendered with the row's original field 0 (called in the state the rows before it left);
the same holds of every successful `signRow`, the body the stream worker shares, and so of
every data row that `ProcessCSVStream` writes, under every schedule. -/
theorem signature_in_field_one :
    (∀ (records out : List Record) (s s' : σ),
      ProcessCSVRecords Sprintf records signFunc template s = (.ok out, s') →
      ∀ (i : Nat) (firstCol : String) (rest : List String), 1 ≤ i →
        records[i]? = some (firstCol :: rest) →
        ∃ pre si signature si',
          ProcessCSVRecords Sprintf (records.take i) signFunc template s = (.ok pre, si) ∧
          signFunc (Sprintf template firstCol).toUTF8 si = (.ok signature, si') ∧
          (out[i]?.bind fun row => row[1]?) = some signature) ∧
    (∀ (firstCol : String) (record out : Record) (s s' : σ),
      signRow Sprintf signFunc template firstCol record s = (.ok out, s') →
        ∃ signature, signFunc (Sprintf template firstCol).toUTF8 s = (.ok signature, s') ∧
          out[1]? = some signature) ∧
    (∀ (c : StreamCfg σ E) (input : List Record) (s : σ) (schedule : List Tid)
      (st : Pipeline σ E), ProcessCSVStream c input s schedule = .ok st →
      ∀ row ∈ st.output.drop 1, ∃ firstCol rest signature si si',
        (firstCol :: rest) ∈ input.drop 1 ∧
        c.signFunc (c.Sprintf c.template firstCol).toUTF8 si = (.ok signature, si') ∧
        row[0]? = some firstCol ∧ row[1]? = some signature) := by
  have hbody : ∀ (Sprintf : String → String → String) (signFunc : SignFunc σ E)
      (template firstCol : String) (record out : Record) (s s' : σ),
      signRow Sprintf signFunc template firstCol record s = (.ok out, s') →
        ∃ signature, signFunc (Sprintf template firstCol).toUTF8 s = (.ok signature, s') ∧
          out[1]? = some signature := by
    intro Sprintf signFunc template firstCol record out s s' h
    obtain ⟨sig, hsig, rfl⟩ :=
      (signRow_ok_iff Sprintf signFunc template firstCol record out s s').mp h
    refine ⟨sig, hsig, ?_⟩
    apply List.getElem?_set_self
    split
    · rw [List.length_append, List.length_replicate]; omega
    · omega
  refine ⟨?_, hbody Sprintf signFunc template, ?_⟩
  · intro records out s s' hrun i firstCol rest hi hrow
    obtain ⟨pre, si, o, si', hpre, hrowrun, hout⟩ :=
      ProcessCSVRecords_ok_at Sprintf signFunc template records out s s' hrun i hi firstCol
        rest hrow
    obtain ⟨sig, hsig, ho⟩ := hbody Sprintf signFunc template firstCol (firstCol :: rest) o si
      si' hrowrun
    exact ⟨pre, si, sig, si', hpre, hsig, by rw [hout]; simpa using ho⟩
  · intro c input s schedule st hrun row hrow
    obtain ⟨f, fs, si, si', hmem, hsr⟩ :=
      ProcessCSVStream_rows_signed c input s schedule st hrun row hrow
    obtain ⟨sig, hsig, ho⟩ := hbody c.Sprintf c.signFunc c.template f (f :: fs) row si si' hsr
    have hhead :=
      (signRow_head c.Sprintf c.signFunc c.template f (f :: fs) row si si' rfl hsr).1
    have h0 : row[0]? = some f := by
      rw [← hhead]; cases row <;> simp
    exact ⟨f, fs, sig, si, si', hmem, hsig, h0, ho⟩

theorem signature_in_field_one_witness :
    (∃ pre si signature si',
      ProcessCSVRecords sprintfTradeNo
          (([["id"], ["a", "x"], [], ["b"]] : List Record).take 3) signAlways
          "trade_no=%s&version=1.0" 0 = (.ok pre, si) ∧
      signAlways (sprintfTradeNo "trade_no=%s&version=1.0" "b").toUTF8 si =
        (.ok signature, si') ∧
      (([["id", "sign-String"], ["a", "c2ln"], [], ["b", "c2ln"]] : List Record)[3]?.bind
        fun row => row[1]?) = some signature) ∧
    (∃ signature,
      signAlways (sprintfTradeNo "trade_no=%s&version=1.0" "b").toUTF8 0 =
        (.ok signature, 1) ∧
      (["b", "c2ln"] : Record)[1]? = some signature) ∧
    (∀ row ∈ (run (sampleCfg 2) (roundRobin 12) gapStart).output.drop 1,
      ∃ firstCol rest signature si si',
        (firstCol :: rest) ∈ ([["id"], ["a"], [], ["b"]] : List Record).drop 1 ∧
        (sampleCfg 2).signFunc
            ((sampleCfg 2).Sprintf (sampleCfg 2).template firstCol).toUTF8 si =
          (.ok signature, si') ∧
        row[0]? = some firstCol ∧ row[1]? = some signature) :=
  ⟨(signature_in_field_one sprintfTradeNo signAlways "trade_no=%s&version=1.0").1
      [["id"], ["a", "x"], [], ["b"]]
      [["id", "sign-String"], ["a", "c2ln"], [], ["b", "c2ln"]] 0 2 rfl 3 "b" [] (by decide) rfl,
    (signature_in_field_one sprintfTradeNo signAlways "trade_no=%s&version=1.0").2.1
      "b" ["b"] ["b", "c2ln"] 0 1 rfl,
    (signature_in_field_one sprintfTradeNo signAlways "trade_no=%s&version=1.0").2.2
      (sampleCfg 2) [["id"], ["a"], [], ["b"]] 0 (roundRobin 12)
      (run (sampleCfg 2) (roundRobin 12) gapStart) rfl⟩

/-- C6: a successful `signRow` on a record with a field keeps field 0 and every field of
index 2 or more, and writes the signature at index 1 of the record padded with empty
strings to 2 fields when it was shorter; so does `ProcessCSVRecords` on each data row
that had a field, and so is every data row that `ProcessCSVStream` writes, under every
schedule, with respect to the input data record it comes from. -/
theorem signRow_changes_only_field_one :
    (∀ (firstCol : String) (rest : List String) (out : Record) (s s' : σ),
      signRow Sprintf signFunc template firstCol (firstCol :: rest) s = (.ok out, s') →
        out[0]? = some firstCol ∧
        (∀ j, 2 ≤ j → j < (firstCol :: rest).length → out[j]? = (firstCol :: rest)[j]?) ∧
        (∃ signature, out =
          (if (firstCol :: rest).length < 2
            then (firstCol :: rest) ++ List.replicate (2 - (firstCol :: rest).length) ""
            else firstCol :: rest).set 1 signature) ∧
        ((firstCol :: rest).length < 2 →
          ((firstCol :: rest) ++ List.replicate (2 - (firstCol :: rest).length) "").length = 2 ∧
          out.length = 2)) ∧
    (∀ (records out : List Record) (s s' : σ),
      ProcessCSVRecords Sprintf records signFunc template s = (.ok out, s') →
      ∀ (i : Nat) (firstCol : String) (rest : List String), 1 ≤ i →
        records[i]? = some (firstCol :: rest) →
        ∃ o, out[i]? = some o ∧ o[0]? = some firstCol ∧
          ∀ j, 2 ≤ j → j < (firstCol :: rest).length → o[j]? = (firstCol :: rest)[j]?) ∧
    (∀ (c : StreamCfg σ E) (input : List Record) (s : σ) (schedule : List Tid)
      (st : Pipeline σ E), ProcessCSVStream c input s schedule = .ok st →
      ∀ row ∈ st.output.drop 1, ∃ firstCol rest,
        (firstCol :: rest) ∈ input.drop 1 ∧ row[0]? = some firstCol ∧
        (∀ j, 2 ≤ j → j < (firstCol :: rest).length → row[j]? = (firstCol :: rest)[j]?) ∧
        ((firstCol :: rest).length < 2 → row.length = 2)) := by
  have hbody : ∀ (Sprintf : String → String → String) (signFunc : SignFunc σ E)
      (template firstCol : String) (rest : List String) (out : Record) (s s' : σ),
      signRow Sprintf signFunc template firstCol (firstCol :: rest) s = (.ok out, s') →
        out[0]? = some firstCol ∧
        (∀ j, 2 ≤ j → j < (firstCol :: rest).length → out[j]? = (firstCol :: rest)[j]?) ∧
        (∃ signature, out =
          (if (firstCol :: rest).length < 2
            then (firstCol :: rest) ++ List.replicate (2 - (firstCol :: rest).length) ""
            else firstCol :: rest).set 1 signature) ∧
        ((firstCol :: rest).length < 2 →
          ((firstCol :: rest) ++ List.replicate (2 - (firstCol :: rest).length) "").length = 2 ∧
          out.length = 2) := by
    intro Sprintf signFunc template firstCol rest out s s' h
    obtain ⟨sig, -, ho⟩ :=
      (signRow_ok_iff Sprintf signFunc template firstCol (firstCol :: rest) out s s').mp h
    refine ⟨?_, ?_, ⟨sig, ho⟩, ?_⟩
    · rw [ho, signed_shape]; rfl
    · intro j hj hlt
      rw [ho, signed_shape]
      obtain ⟨m, rfl⟩ : ∃ m, j = m + 2 := ⟨j - 2, by omega⟩
      cases rest with
      | nil => simp at hlt
      | cons b t => simp
    · intro hshort
      rw [ho, signed_shape]
      cases rest with
      | nil => simp
      | cons b t => simp only [List.length_cons] at hshort; omega
  refine ⟨hbody Sprintf signFunc template, ?_, ?_⟩
  · intro records out s s' hrun i firstCol rest hi hrow
    obtain ⟨pre, si, o, si', -, hrowrun, hout⟩ :=
      ProcessCSVRecords_ok_at Sprintf signFunc template records out s s' hrun i hi firstCol
        rest hrow
    obtain ⟨h0, hframe, -, -⟩ := hbody Sprintf signFunc template firstCol rest o si si' hrowrun
    exact ⟨o, hout, h0, hframe⟩
  · intro c input s schedule st hrun row hrow
    obtain ⟨f, fs, si, si', hmem, hsr⟩ :=
      ProcessCSVStream_rows_signed c input s schedule st hrun row hrow
    obtain ⟨h0, hframe, -, hpad⟩ := hbody c.Sprintf c.signFunc c.template f fs row si si' hsr
    exact ⟨f, fs, hmem, h0, hframe, fun hs => (hpad hs).2⟩

theorem signRow_changes_only_field_one_witness :
    ((["b", "c2ln"] : Record)[0]? = some "b" ∧
      (∀ j, 2 ≤ j → j < ["b"].length → (["b", "c2ln"] : Record)[j]? = (["b"] : Record)[j]?) ∧
      (∃ signature, (["b", "c2ln"] : Record) =
        (if ["b"].length < 2 then ["b"] ++ List.replicate (2 - ["b"].length) ""
          else ["b"]).set 1 signature) ∧
      (["b"].length < 2 →
        (["b"] ++ List.replicate (2 - ["b"].length) "").length = 2 ∧
        (["b", "c2ln"] : Record).length = 2)) ∧
    (∃ o, ([["id", "sign-String"], ["a", "c2ln", "y", "z"], ["b", "c2ln"]] : List Record)[1]? =
        some o ∧ o[0]? = some "a" ∧
      ∀ j, 2 ≤ j → j < ["a", "x", "y", "z"].length →
        o[j]? = (["a", "x", "y", "z"] : Record)[j]?) ∧
    (∀ row ∈ (run (sampleCfg 2) (roundRobin 12) gapStart).output.drop 1,
      ∃ firstCol rest,
        (firstCol :: rest) ∈ ([["id"], ["a"], [], ["b"]] : List Record).drop 1 ∧
        row[0]? = some firstCol ∧
        (∀ j, 2 ≤ j → j < (firstCol :: rest).length → row[j]? = (firstCol :: rest)[j]?) ∧
        ((firstCol :: rest).length < 2 → row.length = 2)) :=
  ⟨(signRow_changes_only_field_one sprintfTradeNo signAlways "trade_no=%s&version=1.0").1
      "b" [] ["b", "c2ln"] 0 1 rfl,
    (signRow_changes_only_field_one sprintfTradeNo signAlways "trade_no=%s&version=1.0").2.1
      [["id"], ["a", "x", "y", "z"], ["b"]]
      [["id", "sign-String"], ["a", "c2ln", "y", "z"], ["b", "c2ln"]] 0 2 rfl
      1 "a" ["x", "y", "z"] (by decide) rfl,
    (signRow_changes_only_field_one sprintfTradeNo signAlways "trade_no=%s&version=1.0").2.2
      (sampleCfg 2) [["id"], ["a"], [], ["b"]] 0 (roundRobin 12)
      (run (sampleCfg 2) (roundRobin 12) gapStart) rfl⟩

end RowClaims

section OrderClaim

variable {σ E : Type}

/-- C8: with concurrency N = 1, when neither `signFunc` nor the writer fails (and every
data record has at least one field, as every record `reader.Read()` returns has), under
every schedule: at the return the data rows written are as many as the input data rows,
their field-0 values are those of the input data rows in input order, the row written at
each position is what `signRow` returned for the input row at the same position, called
in the signing state the rows before it left, and the whole output is what
`ProcessCSVRecords` returns on the same input; and whatever was scheduled so far, the run
can be scheduled on to its return. -/
theorem ProcessCSVStream_one_worker_in_order (c : StreamCfg σ E) (input : List Record)
    (s : σ) (hN : c.concurrency = 1)
    (hsign : ∀ b st, ∃ sig st', c.signFunc b st = (.ok sig, st'))
    (hsink : ∀ out r, c.writeErr out r = none)
    (hrec : ∀ record ∈ input.drop 1, record ≠ []) :
    (∀ (schedule : List Tid) (st : Pipeline σ E) (r : Option E),
      ProcessCSVStream c input s schedule = .ok st → st.main = .returned r →
        ProcessCSVRecords c.Sprintf input c.signFunc c.template s = (.ok st.output, st.sign) ∧
        st.output.length = input.length ∧
        (st.output.drop 1).map List.head? = (input.drop 1).map List.head? ∧
        (∀ (i : Nat) (firstCol : String) (rest : List String), 1 ≤ i →
          input[i]? = some (firstCol :: rest) →
          ∃ pre si row si',
            ProcessCSVRecords c.Sprintf (input.take i) c.signFunc c.template s =
              (.ok pre, si) ∧
            signRow c.Sprintf c.signFunc c.template firstCol (firstCol :: rest) si =
              (.ok row, si') ∧
            st.output[i]? = some row)) ∧
    (∀ (schedule : List Tid) (st : Pipeline σ E),
      ProcessCSVStream c input s schedule = .ok st →
        ∃ more st' r, ProcessCSVStream c input s (schedule ++ more) = .ok st' ∧
          st'.main = .returned r) := by
  refine ⟨?_, ProcessCSVStream_completes c input s (by omega) hsign hsink⟩
  intro schedule st r hrun hret
  obtain ⟨out, hrecs, -, hfc, hsame⟩ :=
    ProcessCSVStream_one_worker_returned c input s hN hsign hsink schedule st r hrun hret
  have hout := hsame hrec
  subst hout
  have hlen : st.output.length = input.length := by
    cases input with
    | nil => simp [ProcessCSVStream, launch] at hrun
    | cons header rest =>
      obtain ⟨hne, rows, hloop, ho⟩ :=
        ProcessCSVRecords_ok_cons c.Sprintf c.signFunc c.template header rest st.output s
          st.sign hrecs
      rw [ho, List.length_cons, List.length_cons,
        processRows_ok_length c.Sprintf c.signFunc c.template rest 1 s st.sign rows hloop]
  refine ⟨hrecs, hlen, ?_, ?_⟩
  · have hwr : ∀ row ∈ st.output.drop 1, row ≠ [] := by
      intro row hrow he
      obtain ⟨f, fs, si, si', -, hsr⟩ :=
        ProcessCSVStream_rows_signed c input s schedule st hrun row hrow
      have := (signRow_head c.Sprintf c.signFunc c.template f (f :: fs) row si si' rfl hsr).2
      rw [he] at this
      simp at this
    rw [map_head?_eq_firstCols _ hwr, map_head?_eq_firstCols _ hrec, hfc]
  · intro i firstCol rest hi hrow
    exact ProcessCSVRecords_ok_at c.Sprintf c.signFunc c.template input st.output s st.sign
      hrecs i hi firstCol rest hrow

theorem ProcessCSVStream_one_worker_in_order_witness :
    ProcessCSVRecords sprintfTradeNo [["id"], ["a"], ["b"], ["c"], ["d"], ["e"]]
        signAlways "trade_no=%s&version=1.0" 0 =
      (.ok (run (sampleCfg 1) (roundRobin 24) abcdeStart).output,
        (run (sampleCfg 1) (roundRobin 24) abcdeStart).sign) ∧
    (run (sampleCfg 1) (roundRobin 24) abcdeStart).output.length =
      ([["id"], ["a"], ["b"], ["c"], ["d"], ["e"]] : List Record).length ∧
    ((run (sampleCfg 1) (roundRobin 24) abcdeStart).output.drop 1).map List.head? =
      ([["id"], ["a"], ["b"], ["c"], ["d"], ["e"]].drop 1 : List Record).map List.head? ∧
    (∀ (i : Nat) (firstCol : String) (rest : List String), 1 ≤ i →
      ([["id"], ["a"], ["b"], ["c"], ["d"], ["e"]] : List Record)[i]? =
        some (firstCol :: rest) →
      ∃ pre si row si',
        ProcessCSVRecords sprintfTradeNo
            (([["id"], ["a"], ["b"], ["c"], ["d"], ["e"]] : List Record).take i) signAlways
            "trade_no=%s&version=1.0" 0 = (.ok pre, si) ∧
        signRow sprintfTradeNo signAlways "trade_no=%s&version=1.0" firstCol
            (firstCol :: rest) si = (.ok row, si') ∧
        (run (sampleCfg 1) (roundRobin 24) abcdeStart).output[i]? = some row) :=
  (ProcessCSVStream_one_worker_in_order (sampleCfg 1)
      [["id"], ["a"], ["b"], ["c"], ["d"], ["e"]] 0 rfl
      (fun _ st => ⟨"c2ln", st + 1, rfl⟩) (fun _ _ => rfl) (by decide)).1
    (roundRobin 24) (run (sampleCfg 1) (roundRobin 24) abcdeStart) none rfl rfl

end OrderClaim

end Query
